import Mathlib

/-!
# Unit-of-measure conversion, reward rates and the allocation guard

A shallow embedding of the pure logic of `src/components/invoice/ProductSelector.jsx`,
of `summarizeIncomingProducts` and the second copy of `calculateAvailableUnits` in
`src/pages/distributor/DistributorMyProducts.jsx`, and of `applyFilters` in
`src/pages/dealer/DealerInvoices.jsx`.

Modelling conventions

* JavaScript numbers are modelled by `JSNum`: a finite number is an integer
  (`JSNum.fin`), and `NaN`, `+Infinity`, `-Infinity` are separate values.  Quantities,
  packaging constants and balances are integers in the data model; integer arithmetic
  is exact in the double format below `2^53`, which is the range the model covers.
* A value read from a backend JSON object is a `JSVal`: `undefined` (field missing),
  `null`, a boolean, a number or a string.  A string carries the number `Number(s)` of
  the host; numeral parsing is not re-implemented.
* A product that is `undefined`/`null` is `none`; reading a property of it raises a
  `TypeError`, modelled by `Except JSError`.
* A line item carries `productID`, `qty`, `uom` and `rest`, the latter standing for
  whatever further fields the owner of the collection put on the object.
* The component does not own the line-item collection: an operation hands the next
  collection to the `onChange` callback, which is taken to be a function (`updateItems`
  does nothing otherwise).  An operation is modelled by the collection it passes to the
  callback, `none` when it returns without calling it.  The `expandedProducts` state
  only decides which buttons are shown and is not modelled.
* Identifiers and names in invoice records are strings.  A date is its time value, a
  number of milliseconds or `NaN` for an invalid date; the date parser of the host and the
  value of `Date.now()` are parameters of the functions that use them.
* The `Map` built by `summarizeIncomingProducts` is modelled by its entries under string
  keys, in insertion order.
-/

/-! ## JavaScript values -/

deriving instance DecidableEq for Except

/-- A JavaScript number: a finite (integer) value, `NaN`, `+Infinity` or `-Infinity`. -/
inductive JSNum where
  | fin (n : Int)
  | nan
  | posInf
  | negInf
  deriving DecidableEq, Repr

/-- A JavaScript value as found in a JSON-shaped object.  A string comes with the number
`Number(s)` that the host computes for it (`StringToNumber`: `0` for the empty string or
white space, the value of a numeral in any of its notations, `NaN` for any other text);
the embedding does not re-implement numeral parsing.  As for numbers, a string whose
numeric value is finite and not an integer has no representation. -/
inductive JSVal where
  | undefined
  | null
  | bool (b : Bool)
  | num (n : JSNum)
  | str (s : String) (number : JSNum)
  deriving DecidableEq, Repr

/-- The error raised when a property of `undefined`/`null` is read. -/
inductive JSError where
  | typeError
  deriving DecidableEq, Repr

/-- The coercion `Number(value)`. -/
def toNumber : JSVal → JSNum
  | JSVal.undefined => JSNum.nan
  | JSVal.null => JSNum.fin 0
  | JSVal.bool true => JSNum.fin 1
  | JSVal.bool false => JSNum.fin 0
  | JSVal.num n => n
  | JSVal.str _ number => number

/-- Truthiness of a value, as consulted by `||` and `!`. -/
def truthy : JSVal → Bool
  | JSVal.undefined => false
  | JSVal.null => false
  | JSVal.bool b => b
  | JSVal.num (JSNum.fin n) => n != 0
  | JSVal.num JSNum.nan => false
  | JSVal.num _ => true
  | JSVal.str s _ => s != ""

/-- The expression `a || b`. -/
def jsOr (a b : JSVal) : JSVal := if truthy a then a else b

/-- The expression `n || d` on numbers: `d` when `n` is `0` or `NaN`. -/
def numOr (n d : JSNum) : JSNum :=
  match n with
  | JSNum.fin 0 => d
  | JSNum.nan => d
  | _ => n

/-- The comparison `a <= b` on numbers (false as soon as one side is `NaN`). -/
def JSNum.le : JSNum → JSNum → Bool
  | JSNum.nan, _ => false
  | _, JSNum.nan => false
  | JSNum.negInf, _ => true
  | _, JSNum.posInf => true
  | JSNum.fin a, JSNum.fin b => decide (a ≤ b)
  | JSNum.fin _, JSNum.negInf => false
  | JSNum.posInf, _ => false

/-- The comparison `a > b` on numbers (false as soon as one side is `NaN`). -/
def JSNum.gt : JSNum → JSNum → Bool
  | JSNum.nan, _ => false
  | _, JSNum.nan => false
  | JSNum.fin a, JSNum.fin b => decide (b < a)
  | JSNum.posInf, JSNum.posInf => false
  | JSNum.posInf, _ => true
  | JSNum.negInf, _ => false
  | JSNum.fin _, JSNum.negInf => true
  | JSNum.fin _, JSNum.posInf => false

/-- The expression `Math.floor(a / b)`. -/
def JSNum.floorDiv : JSNum → JSNum → JSNum
  | JSNum.nan, _ => JSNum.nan
  | _, JSNum.nan => JSNum.nan
  | JSNum.fin a, JSNum.fin b =>
      if b = 0 then
        (if a = 0 then JSNum.nan else if 0 < a then JSNum.posInf else JSNum.negInf)
      else JSNum.fin (Int.fdiv a b)
  | JSNum.fin _, _ => JSNum.fin 0
  | JSNum.posInf, JSNum.fin b => if 0 ≤ b then JSNum.posInf else JSNum.negInf
  | JSNum.negInf, JSNum.fin b => if 0 ≤ b then JSNum.negInf else JSNum.posInf
  | _, _ => JSNum.nan

/-- The comparison `n <= v` of a number with a value, which coerces the value. -/
def leVal (n : JSNum) (v : JSVal) : Bool := JSNum.le n (toNumber v)

/-! ## Data model -/

/-- The allocation record of a product. -/
structure Allocation where
  pieces : JSVal
  qty : JSVal
  uom : JSVal
  deriving DecidableEq, Repr

/-- A product snapshot as fetched from the backend. -/
structure Product where
  _id : String
  boxQuantity : JSVal
  cartonQuantity : JSVal
  rewardsPerPc : JSVal
  rewardsPerDozen : JSVal
  rewardsForBox : JSVal
  rewardsForCarton : JSVal
  allocation : Option Allocation
  deriving DecidableEq, Repr

/-- A line item of the invoice draft. -/
structure LineItem where
  productID : String
  qty : Int
  uom : String
  rest : List (String × JSVal)
  deriving DecidableEq, Repr

/-- The record returned by `calculateAvailableUnits`. -/
structure AvailableUnits where
  pieces : JSNum
  dozens : JSNum
  boxes : JSNum
  cartons : JSNum
  deriving DecidableEq, Repr

/-- The all-zero record `{ pieces: 0, dozens: 0, boxes: 0, cartons: 0 }`. -/
def noUnits : AvailableUnits :=
  { pieces := JSNum.fin 0, dozens := JSNum.fin 0, boxes := JSNum.fin 0, cartons := JSNum.fin 0 }

/-- The property read `availableUnits[key]`; `none` stands for `undefined`. -/
def AvailableUnits.lookup (units : AvailableUnits) (key : String) : Option JSNum :=
  if key = "pieces" then some units.pieces
  else if key = "dozens" then some units.dozens
  else if key = "boxes" then some units.boxes
  else if key = "cartons" then some units.cartons
  else none

/-- Reading `product.field`: a `TypeError` when the product is absent. -/
def readField (product : Option Product) (field : Product → JSVal) : Except JSError JSVal :=
  match product with
  | none => Except.error JSError.typeError
  | some p => Except.ok (field p)

/-- The expression `product?.allocation?.pieces`. -/
def allocationPieces (product : Option Product) : JSVal :=
  match product with
  | none => JSVal.undefined
  | some p =>
    match p.allocation with
    | none => JSVal.undefined
    | some a => a.pieces


/-! ## `ProductSelector.jsx` -/

namespace ProductSelector

/-- The values of `UOM_OPTIONS`, in the order of the source. -/
def UOM_OPTIONS : List String := ["PIECE", "DOZEN", "BOX", "CARTON"]

/-- The source's `normalizeReward(value, fallback)`: `Number(value)` when it is finite,
the fallback otherwise.  The source's default fallback `0` is passed explicitly. -/
def normalizeReward (value : JSVal) (fallback : Int) : Int :=
  match toNumber value with
  | JSNum.fin parsed => parsed
  | _ => fallback

/-- The source's `getRewardPerUnit(product, uom)`. -/
def getRewardPerUnit (product : Option Product) (uom : String) : Int :=
  match product with
  | none => 0
  | some p =>
    if uom = "PIECE" then normalizeReward p.rewardsPerPc 0
    else if uom = "DOZEN" then
      normalizeReward p.rewardsPerDozen (normalizeReward p.rewardsPerPc 0 * 12)
    else if uom = "BOX" then
      let quantity := normalizeReward p.boxQuantity 0
      normalizeReward p.rewardsForBox (normalizeReward p.rewardsPerPc 0 * quantity)
    else if uom = "CARTON" then
      let quantity := normalizeReward p.cartonQuantity 0
      normalizeReward p.rewardsForCarton (normalizeReward p.rewardsPerPc 0 * quantity)
    else 0

/-- The source's `getPiecesFromUom(product, uom, qty)`.  The product is only read for
`BOX` and `CARTON`, and reading a property of an absent product raises. -/
def getPiecesFromUom (product : Option Product) (uom : String) (qty : Int) :
    Except JSError Int :=
  if uom = "PIECE" then Except.ok qty
  else if uom = "DOZEN" then Except.ok (qty * 12)
  else if uom = "BOX" then
    match readField product Product.boxQuantity with
    | Except.error e => Except.error e
    | Except.ok v => Except.ok (qty * normalizeReward v 0)
  else if uom = "CARTON" then
    match readField product Product.cartonQuantity with
    | Except.error e => Except.error e
    | Except.ok v => Except.ok (qty * normalizeReward v 0)
  else Except.ok qty

/-- The source's `calculateAvailableUnits(product, availablePieces)` of
`ProductSelector.jsx`. -/
def calculateAvailableUnits (product : Option Product) (availablePieces : JSVal) :
    AvailableUnits :=
  let pieces := numOr (toNumber availablePieces) (JSNum.fin 0)
  match product with
  | none => noUnits
  | some p =>
    if JSNum.le pieces (JSNum.fin 0) then noUnits
    else
      let boxQty := normalizeReward p.boxQuantity 1
      let cartonQty := normalizeReward p.cartonQuantity 1
      { pieces := pieces
        dozens := JSNum.floorDiv pieces (JSNum.fin 12)
        boxes := if 0 < boxQty then JSNum.floorDiv pieces (JSNum.fin boxQty) else JSNum.fin 0
        cartons :=
          if 0 < cartonQty then JSNum.floorDiv pieces (JSNum.fin cartonQty) else JSNum.fin 0 }

/-- The source's `getProductItems(productId)`. -/
def getProductItems (items : List LineItem) (productId : String) : List LineItem :=
  items.filter (fun item => decide (item.productID = productId))

/-- The test `item.productID === id && item.uom === uom` used by every operation. -/
def sameLine (id uom : String) (item : LineItem) : Bool :=
  decide (item.productID = id) && decide (item.uom = uom)

/-- The expression `existingItem?.qty || 0`. -/
def qtyOrZero (existingItem : Option LineItem) : Int :=
  match existingItem with
  | none => 0
  | some item => if item.qty = 0 then 0 else item.qty

/-- The source's `addUnit(product, uom)`: the collection handed to `onChange`, `none`
when the function returns early (`!product?._id`). -/
def addUnit (items : List LineItem) (product : Option Product) (uom : String) :
    Option (List LineItem) :=
  match product with
  | none => none
  | some p =>
    if p._id = "" then none
    else some (items ++ [{ productID := p._id, qty := 1, uom := uom, rest := [] }])

/-- The source's `updateQuantity(product, uom, delta)`: the collection handed to
`onChange`, `none` when the function returns early (`!product?._id`). -/
def updateQuantity (items : List LineItem) (product : Option Product) (uom : String)
    (delta : Int) : Option (List LineItem) :=
  match product with
  | none => none
  | some p =>
    if p._id = "" then none
    else
      let existingItem := items.find? (sameLine p._id uom)
      let currentQty := qtyOrZero existingItem
      let newQty := max 0 (currentQty + delta)
      if newQty = 0 then
        some (items.filter (fun item => !(sameLine p._id uom item)))
      else if existingItem.isSome then
        some (items.map (fun item =>
          if sameLine p._id uom item then { item with qty := newQty } else item))
      else
        some (items ++ [{ productID := p._id, qty := newQty, uom := uom, rest := [] }])

/-- The source's `removeUnit(productId, uom)`: the collection handed to `onChange`. -/
def removeUnit (items : List LineItem) (productId uom : String) : List LineItem :=
  items.filter (fun item => !(sameLine productId uom item))

/-- The expression `product?.allocation?.pieces || 0`. -/
def availablePiecesOf (product : Option Product) : JSVal :=
  jsOr (allocationPieces product) (JSVal.num (JSNum.fin 0))

/-- The callback of the `reduce` in `checkStockAvailability`. -/
def stockReducer (product : Option Product) (id uom : String) (sum : Int) (item : LineItem) :
    Except JSError Int :=
  if sameLine id uom item then Except.ok sum
  else
    match getPiecesFromUom product item.uom item.qty with
    | Except.error e => Except.error e
    | Except.ok pieces => Except.ok (sum + pieces)

/-- The source's `checkStockAvailability(product, uom, requestedQty)`, with the props
`showStock`, `userRole` (`none` for `null`) and `items` it closes over. -/
def checkStockAvailability (showStock : Bool) (userRole : Option String)
    (items : List LineItem) (product : Option Product) (uom : String) (requestedQty : Int) :
    Except JSError Bool :=
  if !showStock || userRole = some "Company" then Except.ok true
  else
    let availablePieces := availablePiecesOf product
    match getPiecesFromUom product uom requestedQty with
    | Except.error e => Except.error e
    | Except.ok requestedPieces =>
      match product with
      | none => Except.error JSError.typeError
      | some p =>
        let currentItems := getProductItems items p._id
        match currentItems.foldlM (stockReducer product p._id uom) 0 with
        | Except.error e => Except.error e
        | Except.ok sum =>
          let totalRequestedPieces := sum + requestedPieces
          Except.ok (leVal (JSNum.fin totalRequestedPieces) availablePieces)

/-- What one run of an event handler did: the collection passed to `onChange` (if the
callback was invoked) and the error notification shown (if any). -/
structure Outcome where
  next : Option (List LineItem)
  toast : Option String
  deriving DecidableEq, Repr

/-- The source's `handleQuantityChange(product, uom, delta)`.  The `find` callback reads
`product._id`, so an absent product raises as soon as there is a line to inspect. -/
def handleQuantityChange (showStock : Bool) (userRole : Option String)
    (items : List LineItem) (product : Option Product) (uom : String) (delta : Int) :
    Except JSError Outcome :=
  let found : Except JSError (Option LineItem) :=
    match product with
    | some p => Except.ok (items.find? (sameLine p._id uom))
    | none => if items = [] then Except.ok none else Except.error JSError.typeError
  match found with
  | Except.error e => Except.error e
  | Except.ok currentItem =>
    let currentQty := qtyOrZero currentItem
    let newQty := currentQty + delta
    if newQty < 0 then Except.ok { next := none, toast := none }
    else
      match checkStockAvailability showStock userRole items product uom newQty with
      | Except.error e => Except.error e
      | Except.ok available =>
        if !available then Except.ok { next := none, toast := some "Stock Not Available" }
        else Except.ok { next := updateQuantity items product uom delta, toast := none }

/-- The accumulator of the selection summary. -/
structure Summary where
  totalQty : Int
  totalRewards : Int
  totalItems : Int
  deriving DecidableEq, Repr

/-- The callback of the `reduce` that computes `summary`: the product of the line is
looked up in the `products` prop, `undefined` when no product has the identifier. -/
def summaryReducer (products : List Product) (acc : Summary) (item : LineItem) : Summary :=
  let product := products.find? (fun prod => decide (prod._id = item.productID))
  let rewardPerUnit := getRewardPerUnit product item.uom
  { totalQty := acc.totalQty + item.qty
    totalItems := acc.totalItems + 1
    totalRewards := acc.totalRewards + rewardPerUnit * item.qty }

/-- The source's `summary`, computed from the props `products` and `items`. -/
def summary (products : List Product) (items : List LineItem) : Summary :=
  items.foldl (summaryReducer products) { totalQty := 0, totalRewards := 0, totalItems := 0 }

/-- The expression `option.value.toLowerCase() + "s"` (lower-casing of the ASCII
letters, which is all the option values contain). -/
def unitKey (value : String) : String :=
  String.mk (value.data.map Char.toLower ++ "s".data)

/-- The `isDisabled` flag of the Add Unit button of an option, as computed while
rendering the card of `product`. -/
def isDisabled (showStock : Bool) (userRole : Option String) (product : Product)
    (value : String) : Bool :=
  let availablePieces := availablePiecesOf (some product)
  let availableUnits := calculateAvailableUnits (some product) availablePieces
  showStock && decide (userRole ≠ some "Company") &&
    (decide (availableUnits.lookup (unitKey value) = some (JSNum.fin 0)) ||
      decide (availableUnits.lookup (unitKey value) = none))

/-- The `onClick` handler of the Add Unit button of an option: `addUnit` unless the
button is disabled. -/
def clickAddUnit (showStock : Bool) (userRole : Option String) (items : List LineItem)
    (product : Product) (value : String) : Option (List LineItem) :=
  if !(isDisabled showStock userRole product value) then addUnit items (some product) value
  else none

/-- A user action on the rendered component. -/
inductive Action where
  | add (product : Product) (value : String)
  | change (product : Product) (uom : String) (delta : Int)
  | remove (product : Product) (uom : String)
  deriving DecidableEq, Repr

/-- The collection after one action, the owner storing whatever `onChange` receives:
the Add Unit button of an option, the `+`/`–` buttons (`handleQuantityChange`), and the
remove button (`removeUnit(product._id, item.uom)`). -/
def step (showStock : Bool) (userRole : Option String) (items : List LineItem) :
    Action → List LineItem
  | Action.add product value =>
    (clickAddUnit showStock userRole items product value).getD items
  | Action.change product uom delta =>
    match handleQuantityChange showStock userRole items (some product) uom delta with
    | Except.error _ => items
    | Except.ok outcome => outcome.next.getD items
  | Action.remove product uom => removeUnit items product._id uom

/-- The collection after a sequence of actions. -/
def run (showStock : Bool) (userRole : Option String) (items : List LineItem)
    (actions : List Action) : List LineItem :=
  actions.foldl (step showStock userRole) items

/-- The number `getPiecesFromUom(product, uom, qty)` returns for a present product.  The
call raises for no present product (`getPiecesFromUom_some`), so the second branch is
never taken. -/
def piecesOf (product : Product) (uom : String) (qty : Int) : Int :=
  match getPiecesFromUom (some product) uom qty with
  | Except.ok pieces => pieces
  | Except.error _ => 0

/-- The sum over the lines of `product` of their piece-equivalents. -/
def allocatedPieces (product : Product) (items : List LineItem) : Int :=
  ((getProductItems items product._id).map (fun item => piecesOf product item.uom item.qty)).sum

end ProductSelector

/-! ## `DistributorMyProducts.jsx` -/

namespace DistributorMyProducts

/-- The source's `calculateAvailableUnits(product, availablePieces)` of
`DistributorMyProducts.jsx`. -/
def calculateAvailableUnits (product : Option Product) (availablePieces : JSVal) :
    AvailableUnits :=
  let pieces := numOr (toNumber availablePieces) (JSNum.fin 0)
  match product with
  | none => noUnits
  | some p =>
    if JSNum.le pieces (JSNum.fin 0) then noUnits
    else
      let boxQty := numOr (toNumber p.boxQuantity) (JSNum.fin 1)
      let cartonQty := numOr (toNumber p.cartonQuantity) (JSNum.fin 1)
      { pieces := pieces
        dozens := JSNum.floorDiv pieces (JSNum.fin 12)
        boxes :=
          if JSNum.gt boxQty (JSNum.fin 0) then JSNum.floorDiv pieces boxQty else JSNum.fin 0
        cartons :=
          if JSNum.gt cartonQty (JSNum.fin 0) then JSNum.floorDiv pieces cartonQty
          else JSNum.fin 0 }

end DistributorMyProducts

/-! ## Invoice records -/

/-- A reference to a user or a product inside an invoice record: missing, `null`, an
identifier string, or a populated object, of which `_id` and `name` are read (`none` for
a missing field). -/
inductive Reference where
  | undefined
  | null
  | id (s : String)
  | populated (_id : Option String) (name : Option String)
  deriving DecidableEq, Repr

/-- An item of an invoice record. -/
structure InvoiceItem where
  productID : Reference
  itemCode : Option String
  itemName : Option String
  qty : JSVal
  deriving DecidableEq, Repr

/-- An invoice record as fetched from the backend; a missing `items` array is `[]`. -/
structure Invoice where
  toUser : Reference
  fromUser : Reference
  createdByRole : Option String
  items : List InvoiceItem
  invoiceDate : JSVal
  date : JSVal
  deriving DecidableEq, Repr

/-- The sum `a + b` of two numbers. -/
def JSNum.add : JSNum → JSNum → JSNum
  | JSNum.nan, _ => JSNum.nan
  | _, JSNum.nan => JSNum.nan
  | JSNum.fin a, JSNum.fin b => JSNum.fin (a + b)
  | JSNum.posInf, JSNum.negInf => JSNum.nan
  | JSNum.negInf, JSNum.posInf => JSNum.nan
  | JSNum.posInf, _ => JSNum.posInf
  | _, JSNum.posInf => JSNum.posInf
  | JSNum.negInf, _ => JSNum.negInf
  | _, JSNum.negInf => JSNum.negInf

/-- The comparison `a >= b` on numbers (false as soon as one side is `NaN`). -/
def JSNum.ge (a b : JSNum) : Bool := JSNum.le b a

/-- The operation `TimeClip`: a time value is a finite number of at most `8.64e15`
milliseconds in absolute value; any other number gives `NaN`, an invalid date. -/
def timeClip : JSNum → JSNum
  | JSNum.fin ms =>
    if -8640000000000000 ≤ ms ∧ ms ≤ 8640000000000000 then JSNum.fin ms else JSNum.nan
  | _ => JSNum.nan

/-- The time value of `new Date(value)`, `NaN` for an invalid date: a string is parsed
(the parser of the host is the parameter `parseDate`), any other value is coerced to a
number of milliseconds; the result goes through `TimeClip`. -/
def newDate (parseDate : String → JSNum) (value : JSVal) : JSNum :=
  match value with
  | JSVal.str s _ => timeClip (parseDate s)
  | _ => timeClip (toNumber value)

/-- The date of an invoice, `new Date(invoice.invoiceDate || invoice.date || Date.now())`,
`now` being the value of the clock. -/
def invoiceDateOf (parseDate : String → JSNum) (now : Int) (invoice : Invoice) : JSNum :=
  newDate parseDate (jsOr (jsOr invoice.invoiceDate invoice.date) (JSVal.num (JSNum.fin now)))

namespace DistributorMyProducts

/-- The value recorded for a product in the summary of incoming products; `lastDate` is
`none` for `null` and the time value of the date otherwise. -/
structure Incoming where
  totalQty : JSNum
  lastDate : Option JSNum
  deriving DecidableEq, Repr

/-- The entries of the `Map` under string keys, in insertion order. -/
abbrev IncomingMap := List (String × Incoming)

/-- The call `summary.get(key)`; `none` stands for `undefined`. -/
def mapGet : IncomingMap → String → Option Incoming
  | [], _ => none
  | (k, v) :: rest, key => if k = key then some v else mapGet rest key

/-- The call `summary.set(key, value)`: an existing key keeps its place. -/
def mapSet : IncomingMap → String → Incoming → IncomingMap
  | [], key, value => [(key, value)]
  | (k, v) :: rest, key, value =>
    if k = key then (key, value) :: rest else (k, v) :: mapSet rest key value

/-- The string `String(invoice.toUser?._id || invoice.toUser)`. -/
def toIdString : Reference → String
  | Reference.undefined => "undefined"
  | Reference.null => "null"
  | Reference.id s => s
  | Reference.populated (some _id) _ => if _id = "" then "[object Object]" else _id
  | Reference.populated none _ => "[object Object]"

/-- The key `item.productID?._id || item.productID || item.itemCode` when it is a
non-empty string; `none` when the key is falsy (the item is skipped).  A populated product
object without `_id` is itself the key, by identity: it is equal to no string key, and
its entry is not represented in `IncomingMap`, so the item is `none` here as well. -/
def productKey (item : InvoiceItem) : Option String :=
  match item.productID with
  | Reference.populated (some _id) _ => if _id = "" then none else some _id
  | Reference.populated none _ => none
  | Reference.id s =>
    if s = "" then
      (match item.itemCode with
       | some code => if code = "" then none else some code
       | none => none)
    else some s
  | _ =>
    match item.itemCode with
    | some code => if code = "" then none else some code
    | none => none

/-- The number `Number(item.qty || 0)`. -/
def itemQty (item : InvoiceItem) : JSNum :=
  toNumber (jsOr item.qty (JSVal.num (JSNum.fin 0)))

/-- The update of the entry `existing` by one item of an invoice dated `invoiceDate`:
`existing.totalQty += Number(item.qty || 0)`, and `existing.lastDate = invoiceDate` if
`!existing.lastDate || invoiceDate > existing.lastDate`. -/
def recordItem (existing : Incoming) (qty invoiceDate : JSNum) : Incoming :=
  { totalQty := JSNum.add existing.totalQty qty
    lastDate :=
      match existing.lastDate with
      | none => some invoiceDate
      | some last => if JSNum.gt invoiceDate last then some invoiceDate else some last }

/-- The callback of the inner `forEach` of `summarizeIncomingProducts`. -/
def itemStep (parseDate : String → JSNum) (now : Int) (invoice : Invoice)
    (summary : IncomingMap) (item : InvoiceItem) : IncomingMap :=
  match productKey item with
  | none => summary
  | some productId =>
    let existing := (mapGet summary productId).getD { totalQty := JSNum.fin 0, lastDate := none }
    let invoiceDate := invoiceDateOf parseDate now invoice
    mapSet summary productId (recordItem existing (itemQty item) invoiceDate)

/-- The callback of the outer `forEach` of `summarizeIncomingProducts`. -/
def invoiceStep (parseDate : String → JSNum) (now : Int) (target : String)
    (summary : IncomingMap) (invoice : Invoice) : IncomingMap :=
  if toIdString invoice.toUser ≠ target then summary
  else if invoice.createdByRole ≠ some "Company" then summary
  else invoice.items.foldl (itemStep parseDate now invoice) summary

/-- The source's `summarizeIncomingProducts(invoiceRecords, receiverId)`; an absent
`receiverId` is `none`, and the empty string is falsy as well. -/
def summarizeIncomingProducts (parseDate : String → JSNum) (now : Int)
    (invoiceRecords : List Invoice) (receiverId : Option String) : IncomingMap :=
  match receiverId with
  | none => []
  | some id =>
    if id = "" then []
    else invoiceRecords.foldl (invoiceStep parseDate now id) []

/-- The sum of a list of numbers, from the left, starting at `0`. -/
def sumNumbers (values : List JSNum) : JSNum :=
  values.foldl JSNum.add (JSNum.fin 0)

/-- The invoices that count for a receiver: addressed to the receiver and created by the
role "Company". -/
def incomingInvoices (invoiceRecords : List Invoice) (receiverId : String) : List Invoice :=
  invoiceRecords.filter (fun invoice =>
    decide (toIdString invoice.toUser = receiverId) &&
      decide (invoice.createdByRole = some "Company"))

/-- The items that count for a product identifier, each with the date of its invoice, in
the order of the records: the items with that key in the invoices that count. -/
def incomingItems (parseDate : String → JSNum) (now : Int) (invoiceRecords : List Invoice)
    (receiverId productId : String) : List (JSNum × JSNum) :=
  (incomingInvoices invoiceRecords receiverId).flatMap (fun invoice =>
    (invoice.items.filter (fun item => decide (productKey item = some productId))).map
      (fun item => (itemQty item, invoiceDateOf parseDate now invoice)))

/-- The entry of a key after the items that count for it have been recorded one after the
other, `start` being the entry before them (`none` if the key is not in the map). -/
def recordAll (start : Option Incoming) (entries : List (JSNum × JSNum)) : Option Incoming :=
  entries.foldl (fun acc entry =>
    some (recordItem (acc.getD { totalQty := JSNum.fin 0, lastDate := none }) entry.1 entry.2))
    start

end DistributorMyProducts

/-! ## `DealerInvoices.jsx` -/

namespace DealerInvoices

/-- The filter values of the page. -/
structure Filters where
  query : String
  from_ : String
  to_ : String
  deriving DecidableEq, Repr

/-- The source's `defaultFilters`. -/
def defaultFilters : Filters := { query := "", from_ := "", to_ := "" }

/-- White space and line terminators, as removed by `trim()`. -/
def isTrimSpace (c : Char) : Bool :=
  (9 ≤ c.toNat && c.toNat ≤ 13) || c.toNat = 32 || c.toNat = 160 || c.toNat = 5760 ||
    (8192 ≤ c.toNat && c.toNat ≤ 8202) || c.toNat = 8232 || c.toNat = 8233 ||
    c.toNat = 8239 || c.toNat = 8287 || c.toNat = 12288 || c.toNat = 65279

/-- The call `s.trim()`, on the characters of the string. -/
def trim (s : String) : List Char :=
  ((s.data.dropWhile isTrimSpace).reverse.dropWhile isTrimSpace).reverse

/-- The call `s.toLowerCase()`, on characters: the ASCII letters are lower-cased, other
characters are left as they are. -/
def toLowerCase (cs : List Char) : List Char := cs.map Char.toLower

/-- The test that `value` begins with `search`. -/
def beginsWith : List Char → List Char → Bool
  | _, [] => true
  | [], _ :: _ => false
  | c :: cs, d :: ds => decide (c = d) && beginsWith cs ds

/-- The call `value.includes(search)`: `search` occurs in `value`. -/
def includes : List Char → List Char → Bool
  | [], search => search.isEmpty
  | c :: cs, search => beginsWith (c :: cs) search || includes cs search

/-- The expression `invoice.fromUser?.name`. -/
def fromUserName (invoice : Invoice) : Option String :=
  match invoice.fromUser with
  | Reference.populated _ name => name
  | _ => none

/-- The expression `it.itemName || it.productID?.name || ""`. -/
def itemName (it : InvoiceItem) : String :=
  match it.itemName with
  | some name => if name ≠ "" then name else
      (match it.productID with
       | Reference.populated _ (some n) => n
       | _ => "")
  | none =>
      match it.productID with
      | Reference.populated _ (some n) => n
      | _ => ""

/-- The array `[invoice.fromUser?.name, ...items.map(...)].filter(Boolean)`. -/
def searchableNames (invoice : Invoice) : List String :=
  ((fromUserName invoice :: invoice.items.map (fun it => some (itemName it))).filterMap id).filter
    (fun value => decide (value ≠ ""))

/-- The source's `applyFilters(invoices, filters)`; `parseDate` is the date parser of the
host and `now` the value of the clock. -/
def applyFilters (parseDate : String → JSNum) (now : Int) (invoices : List Invoice)
    (filters : Filters) : List Invoice :=
  let search := toLowerCase (trim filters.query)
  let fromDate := if filters.from_ ≠ "" then some (parseDate filters.from_) else none
  let toDate := if filters.to_ ≠ "" then some (parseDate filters.to_) else none
  invoices.filter (fun invoice =>
    let invoiceDate := invoiceDateOf parseDate now invoice
    let matchesText :=
      search.isEmpty ||
        (searchableNames invoice).any (fun value => includes (toLowerCase value.data) search)
    let matchesFrom :=
      match fromDate with
      | none => true
      | some d => JSNum.ge invoiceDate d
    let matchesTo :=
      match toDate with
      | none => true
      | some d => JSNum.le invoiceDate d
    matchesText && matchesFrom && matchesTo)

/-- The text condition of the filter in the words of the specification: the trimmed,
lower-cased query is empty, or occurs in the lower-cased distributor name, or occurs in
the lower-cased name of some item. -/
def MatchesText (filters : Filters) (invoice : Invoice) : Prop :=
  toLowerCase (trim filters.query) = [] ∨
  (∃ name : String, fromUserName invoice = some name ∧
    ∃ before after : List Char,
      before ++ toLowerCase (trim filters.query) ++ after = toLowerCase name.data) ∨
  (∃ it ∈ invoice.items, ∃ before after : List Char,
    before ++ toLowerCase (trim filters.query) ++ after = toLowerCase (itemName it).data)

/-- The date conditions of the filter in the words of the specification: no `from` date
or the invoice date is at or after it, and no `to` date or the invoice date is at or
before it. -/
def MatchesDates (parseDate : String → JSNum) (now : Int) (filters : Filters)
    (invoice : Invoice) : Prop :=
  (filters.from_ = "" ∨
    JSNum.le (parseDate filters.from_) (invoiceDateOf parseDate now invoice) = true) ∧
  (filters.to_ = "" ∨
    JSNum.le (invoiceDateOf parseDate now invoice) (parseDate filters.to_) = true)

end DealerInvoices

/-! ## Sample invoices -/

/-- An item of product `productId` named "Blue Pen". -/
def sampleItem (productId : String) (qty : Int) : InvoiceItem :=
  { productID := Reference.id productId, itemCode := none, itemName := some "Blue Pen",
    qty := JSVal.num (JSNum.fin qty) }

/-- An invoice from the distributor "Acme Traders" to the user `toUser`, dated `day`
(a time value). -/
def sampleInvoice (toUser role : String) (day : Int) (items : List InvoiceItem) : Invoice :=
  { toUser := Reference.populated (some toUser) none
    fromUser := Reference.populated (some "d1") (some "Acme Traders")
    createdByRole := some role
    items := items
    invoiceDate := JSVal.num (JSNum.fin day)
    date := JSVal.undefined }

/-- Four invoices: two from the company to `u1`, one to `u2`, one from a distributor. -/
def sampleInvoices : List Invoice :=
  [sampleInvoice "u1" "Company" 3 [sampleItem "p1" 2],
   sampleInvoice "u2" "Company" 9 [sampleItem "p1" 5],
   sampleInvoice "u1" "Company" 1 [sampleItem "p1" 4, sampleItem "p2" 1],
   sampleInvoice "u1" "Distributor" 7 [sampleItem "p1" 10]]

/-- A date parser that knows one date string. -/
def sampleParseDate (s : String) : JSNum :=
  if s = "2024-01-02" then JSNum.fin 2 else JSNum.nan

/-! ## Sample data -/

namespace ProductSelector

/-- A number as a JSON value. -/
def jsInt (n : Int) : JSVal := JSVal.num (JSNum.fin n)

/-- A product with `boxQuantity = 10`, `cartonQuantity = 60`, `rewardsPerPc = 5`, no
specific rate and an allocated balance of `pieces`. -/
def sampleProduct (pieces : Int) : Product :=
  { _id := "p1"
    boxQuantity := jsInt 10
    cartonQuantity := jsInt 60
    rewardsPerPc := jsInt 5
    rewardsPerDozen := JSVal.undefined
    rewardsForBox := JSVal.undefined
    rewardsForCarton := JSVal.undefined
    allocation := some { pieces := jsInt pieces, qty := JSVal.undefined, uom := JSVal.undefined } }

/-- The sample product with every specific rate set to `null`. -/
def nullRatesProduct : Product :=
  { sampleProduct 100 with
    rewardsPerDozen := JSVal.null
    rewardsForBox := JSVal.null
    rewardsForCarton := JSVal.null }

/-- A line of the sample product. -/
def sampleLine (uom : String) (qty : Int) : LineItem :=
  { productID := "p1", qty := qty, uom := uom, rest := [] }

/-! ## Vocabulary of the statements -/

/-- No two lines of the collection share their `(productID, uom)` pair. -/
def UniqueLines (items : List LineItem) : Prop :=
  (items.map (fun item => (item.productID, item.uom))).Nodup

instance (items : List LineItem) : Decidable (UniqueLines items) :=
  inferInstanceAs (Decidable (List.Nodup _))

/-- The sum the guard forms before it adds the requested pieces: the piece-equivalents
of the lines of `product` whose UOM differs from `uom`. -/
def otherLinesPieces (product : Product) (uom : String) (items : List LineItem) : Int :=
  ((items.filter (fun item => decide (item.productID = product._id) && decide (item.uom ≠ uom))).map
    (fun item => piecesOf product item.uom item.qty)).sum

/-- The actions of a trace that go through the allocation guard or only remove a line:
quantity changes and removes.  A quantity change made on the card of a product with the
identifier of `p` is made on `p` itself. -/
def Action.checkedFor (p : Product) : Action → Prop
  | Action.add _ _ => False
  | Action.change q _ _ => q._id = p._id → q = p
  | Action.remove _ _ => True

/-- The invariant of a collection with respect to a product `p` with balance `b`: one
line per `(productID, uom)` pair, no negative quantity, and the piece-equivalent of the
lines of `p` within the balance. -/
def WithinAllocation (p : Product) (b : Int) (items : List LineItem) : Prop :=
  UniqueLines items ∧ (∀ item ∈ items, 0 ≤ item.qty) ∧ allocatedPieces p items ≤ b

/-- The quantity of the line of the pair `(id, uom)`, the first one if there are several,
and `0` if there is none. -/
def lineQty (items : List LineItem) (id uom : String) : Int :=
  match items.find? (sameLine id uom) with
  | some item => item.qty
  | none => 0

/-- The collection has a line for the pair `(id, uom)`, and every line for the pair has
quantity `n`. -/
def HasLine (items : List LineItem) (id uom : String) (n : Int) : Prop :=
  (∃ item ∈ items, sameLine id uom item = true) ∧
    ∀ item ∈ items, sameLine id uom item = true → item.qty = n

/-- The collection has no line for the pair `(id, uom)`. -/
def NoLine (items : List LineItem) (id uom : String) : Prop :=
  ∀ item ∈ items, sameLine id uom item = false

/-- The content of a line as a `(productID, uom, qty)` triple. -/
def lineTriple (item : LineItem) : String × String × Int :=
  (item.productID, item.uom, item.qty)

/-- The count `calculateAvailableUnits` reports for a UOM: `pieces` for `PIECE`, `dozens`
for `DOZEN`, `boxes` for `BOX` and `cartons` for `CARTON` (`undefined`, here `none`, for
any other string). -/
def unitCount (units : AvailableUnits) (uom : String) : Option JSNum :=
  if uom = "PIECE" then some units.pieces
  else if uom = "DOZEN" then some units.dozens
  else if uom = "BOX" then some units.boxes
  else if uom = "CARTON" then some units.cartons
  else none

/-- The fields of a line other than its quantity. -/
def lineFrame (item : LineItem) : String × String × List (String × JSVal) :=
  (item.productID, item.uom, item.rest)

/-! ## Auxiliary facts -/

theorem getPiecesFromUom_some (p : Product) (uom : String) (qty : Int) :
    getPiecesFromUom (some p) uom qty = Except.ok (piecesOf p uom qty) := by
  unfold piecesOf getPiecesFromUom readField
  split_ifs <;> rfl

theorem stockReducer_some (p : Product) (id uom : String) (sum : Int) (item : LineItem) :
    stockReducer (some p) id uom sum item =
      Except.ok (if sameLine id uom item then sum else sum + piecesOf p item.uom item.qty) := by
  unfold stockReducer
  rw [getPiecesFromUom_some]
  split_ifs <;> rfl

theorem foldlM_stockReducer (p : Product) (id uom : String) (items : List LineItem) :
    ∀ init : Int, items.foldlM (stockReducer (some p) id uom) init =
      Except.ok (init + ((items.filter (fun item => !(sameLine id uom item))).map
        (fun item => piecesOf p item.uom item.qty)).sum) := by
  induction items with
  | nil => intro init; simp [pure, Except.pure]
  | cons item rest ih =>
    intro init
    rw [List.foldlM_cons, stockReducer_some]
    show (rest.foldlM (stockReducer (some p) id uom) _) = _
    rw [ih]
    by_cases h : sameLine id uom item = true
    · simp [h]
    · simp [h, List.filter_cons, add_assoc]

theorem getProductItems_filter_not_sameLine (items : List LineItem) (id uom : String) :
    (getProductItems items id).filter (fun item => !(sameLine id uom item)) =
      items.filter (fun item => decide (item.productID = id) && decide (item.uom ≠ uom)) := by
  unfold getProductItems
  rw [List.filter_filter]
  apply List.filter_congr
  intro item _
  by_cases h1 : item.productID = id <;> by_cases h2 : item.uom = uom <;> simp [sameLine, h1, h2]

theorem normalizeReward_fin (v : JSVal) (d r : Int) (h : toNumber v = JSNum.fin r) :
    normalizeReward v d = r := by
  simp [normalizeReward, h]

theorem normalizeReward_not_fin (v : JSVal) (d : Int)
    (h : ∀ r : Int, toNumber v ≠ JSNum.fin r) : normalizeReward v d = d := by
  unfold normalizeReward
  cases hv : toNumber v with
  | fin n => exact absurd hv (h n)
  | nan => rfl
  | posInf => rfl
  | negInf => rfl

theorem normalizeReward_undefined (d : Int) : normalizeReward JSVal.undefined d = d := rfl

theorem normalizeReward_null (d : Int) : normalizeReward JSVal.null d = 0 := rfl

theorem fdiv_eq_floor (n b : Int) (hb : 0 < b) : Int.fdiv n b = ⌊(n : ℚ) / (b : ℚ)⌋ := by
  obtain ⟨d, rfl⟩ := Int.eq_ofNat_of_zero_le hb.le
  rw [Int.fdiv_eq_ediv n (Int.ofNat_nonneg d)]
  exact (Rat.floor_intCast_div_natCast n d).symm

theorem numOr_pos (n : Int) (hn : 0 < n) : numOr (JSNum.fin n) (JSNum.fin 0) = JSNum.fin n := by
  have h0 : n ≠ 0 := ne_of_gt hn
  unfold numOr
  split
  · next h => exact absurd (JSNum.fin.inj h) h0
  · next h => exact absurd h (by simp)
  · rfl

theorem checkStockAvailability_on (userRole : Option String) (items : List LineItem)
    (p : Product) (uom : String) (requestedQty : Int) (hrole : userRole ≠ some "Company") :
    checkStockAvailability true userRole items (some p) uom requestedQty =
      Except.ok (leVal (JSNum.fin (otherLinesPieces p uom items + piecesOf p uom requestedQty))
        (availablePiecesOf (some p))) := by
  unfold checkStockAvailability
  simp only [Bool.not_true, Bool.false_or, decide_eq_true_eq, hrole, if_false]
  rw [getPiecesFromUom_some]
  simp only [foldlM_stockReducer, zero_add, getProductItems_filter_not_sameLine,
    otherLinesPieces]

theorem toNumber_availablePiecesOf (p : Product) (b : Int)
    (hbal : allocationPieces (some p) = JSVal.num (JSNum.fin b) ∨
      (allocationPieces (some p) = JSVal.undefined ∧ b = 0)) :
    toNumber (availablePiecesOf (some p)) = JSNum.fin b := by
  unfold availablePiecesOf jsOr
  rcases hbal with h | ⟨h, hb⟩
  · rw [h]
    by_cases hb : b = 0
    · subst hb; simp [truthy, toNumber]
    · simp [truthy, toNumber, hb]
  · rw [h, hb]; simp [truthy, toNumber]

/-! ## The allocation guard -/

/-- C1 (counterexample): with the `showStock` flag off, a caller other than "Company"
gets `true` for one piece of a product whose allocated balance is `0`, although the
total, `1`, exceeds the balance. -/
theorem checkStockAvailability_showStock_off_counterexample :
    ¬ (checkStockAvailability false (some "Dealer") [] (some (sampleProduct 0)) "PIECE" 1
          = Except.ok true ↔
        (([] : List LineItem).filter
            (fun item => decide (item.productID = (sampleProduct 0)._id) &&
              decide (item.uom ≠ "PIECE"))
          |>.map (fun item => piecesOf (sampleProduct 0) item.uom item.qty)).sum
          + piecesOf (sampleProduct 0) "PIECE" 1 ≤ 0) := by
  decide

/-- C1 (amended): with the `showStock` flag on, for every caller role other than
"Company", every product whose allocated piece balance `product.allocation.pieces` is the
number `b` (or is missing, and `b = 0`), every UOM, requested quantity and line-item
collection, `checkStockAvailability` returns the truth value of: the sum of
`getPiecesFromUom(product, item.uom, item.qty)` over the lines of that product whose UOM
differs from the requested one, plus `getPiecesFromUom(product, uom, requestedQty)`, is at
most `b`. -/
theorem checkStockAvailability_eq_total_le (userRole : Option String)
    (items : List LineItem) (p : Product) (uom : String) (requestedQty b : Int)
    (hrole : userRole ≠ some "Company")
    (hbal : allocationPieces (some p) = JSVal.num (JSNum.fin b) ∨
      (allocationPieces (some p) = JSVal.undefined ∧ b = 0)) :
    checkStockAvailability true userRole items (some p) uom requestedQty =
      Except.ok (decide
        (((items.filter (fun item => decide (item.productID = p._id) && decide (item.uom ≠ uom))).map
            (fun item => piecesOf p item.uom item.qty)).sum
          + piecesOf p uom requestedQty ≤ b)) := by
  rw [checkStockAvailability_on userRole items p uom requestedQty hrole]
  simp only [leVal, toNumber_availablePiecesOf p b hbal, JSNum.le, otherLinesPieces]

/-- C1 (witness): the guard at the sample product with balance `100`, one `BOX` line of
quantity `5` and a request of one `CARTON`. -/
theorem checkStockAvailability_eq_total_le_witness :
    checkStockAvailability true (some "Distributor") [sampleLine "BOX" 5]
        (some (sampleProduct 100)) "CARTON" 1 =
      Except.ok (decide
        ((([sampleLine "BOX" 5].filter
            (fun item => decide (item.productID = (sampleProduct 100)._id) &&
              decide (item.uom ≠ "CARTON"))).map
            (fun item => piecesOf (sampleProduct 100) item.uom item.qty)).sum
          + piecesOf (sampleProduct 100) "CARTON" 1 ≤ 100)) :=
  checkStockAvailability_eq_total_le (some "Distributor") [sampleLine "BOX" 5]
    (sampleProduct 100) "CARTON" 1 100 (by decide) (Or.inl rfl)

/-- C2: for the caller role "Company", `checkStockAvailability` returns `true` for every
value of the `showStock` flag, every collection, every product (present or absent, with
any balance), every UOM and every requested quantity. -/
theorem checkStockAvailability_company (showStock : Bool) (items : List LineItem)
    (product : Option Product) (uom : String) (requestedQty : Int) :
    checkStockAvailability showStock (some "Company") items product uom requestedQty =
      Except.ok true := by
  simp [checkStockAvailability]

/-! ## The unit converter -/

/-- C5: for every product and quantity `q`, `getPiecesFromUom` returns `q` for `PIECE`,
`q * 12` for `DOZEN`, `q * boxQuantity` for `BOX` and `q * cartonQuantity` for `CARTON`
(the packaging constant being the number the field holds), and `q` for every UOM string
outside these four. -/
theorem getPiecesFromUom_cases (p : Product) (q : Int) :
    getPiecesFromUom (some p) "PIECE" q = Except.ok q ∧
    getPiecesFromUom (some p) "DOZEN" q = Except.ok (q * 12) ∧
    (∀ b : Int, toNumber p.boxQuantity = JSNum.fin b →
      getPiecesFromUom (some p) "BOX" q = Except.ok (q * b)) ∧
    (∀ c : Int, toNumber p.cartonQuantity = JSNum.fin c →
      getPiecesFromUom (some p) "CARTON" q = Except.ok (q * c)) ∧
    (∀ uom : String, uom ∉ UOM_OPTIONS → getPiecesFromUom (some p) uom q = Except.ok q) := by
  refine ⟨by simp [getPiecesFromUom], by simp [getPiecesFromUom], ?_, ?_, ?_⟩
  · intro b hb
    simp [getPiecesFromUom, readField, normalizeReward, hb]
  · intro c hc
    simp [getPiecesFromUom, readField, normalizeReward, hc]
  · intro uom hu
    simp only [UOM_OPTIONS, List.mem_cons, List.mem_singleton, List.not_mem_nil, or_false,
      not_or] at hu
    simp [getPiecesFromUom, hu.1, hu.2.1, hu.2.2.1, hu.2.2.2]

/-- C5 (witness): the sample product (`boxQuantity = 10`, `cartonQuantity = 60`) and
quantity `3`. -/
theorem getPiecesFromUom_cases_witness :
    getPiecesFromUom (some (sampleProduct 100)) "BOX" 3 = Except.ok (3 * 10) ∧
    getPiecesFromUom (some (sampleProduct 100)) "CARTON" 3 = Except.ok (3 * 60) ∧
    getPiecesFromUom (some (sampleProduct 100)) "PALLET" 3 = Except.ok 3 :=
  ⟨(getPiecesFromUom_cases (sampleProduct 100) 3).2.2.1 10 rfl,
   (getPiecesFromUom_cases (sampleProduct 100) 3).2.2.2.1 60 rfl,
   (getPiecesFromUom_cases (sampleProduct 100) 3).2.2.2.2 "PALLET" (by decide)⟩

/-- C6: `getPiecesFromUom` is linear in the quantity: for every product, every UOM (the
four of the enumeration included) and every integer `q`, the call with `2 * q` returns
twice what the call with `q` returns. -/
theorem getPiecesFromUom_double (p : Product) (uom : String) (q : Int) :
    ∃ pieces : Int, getPiecesFromUom (some p) uom q = Except.ok pieces ∧
      getPiecesFromUom (some p) uom (2 * q) = Except.ok (2 * pieces) := by
  refine ⟨piecesOf p uom q, getPiecesFromUom_some p uom q, ?_⟩
  rw [getPiecesFromUom_some]
  congr 1
  unfold piecesOf getPiecesFromUom readField
  split_ifs <;> simp only <;> ring

/-! ## The reward calculator -/

/-- C7 (counterexample): a product with `rewardsPerPc = 5`, `boxQuantity = 10`,
`cartonQuantity = 60` whose `rewardsForBox` and `rewardsForCarton` are `null`, hence not
present, has the `BOX` and `CARTON` rates `0`, not `5 * 10` and `5 * 60`. -/
theorem getRewardPerUnit_null_not_absent :
    nullRatesProduct.rewardsForBox = JSVal.null ∧
    nullRatesProduct.rewardsForCarton = JSVal.null ∧
    getRewardPerUnit (some nullRatesProduct) "PIECE" = 5 ∧
    getRewardPerUnit (some nullRatesProduct) "BOX" = 0 ∧
    getRewardPerUnit (some nullRatesProduct) "BOX" ≠ 5 * 10 ∧
    getRewardPerUnit (some nullRatesProduct) "CARTON" = 0 ∧
    getRewardPerUnit (some nullRatesProduct) "CARTON" ≠ 5 * 60 := by
  decide

/-- C7 (amended): for every product, `getRewardPerUnit` returns: for `PIECE`, the number
`Number(rewardsPerPc)`, and `0` when that is not a finite number; for `DOZEN`, `BOX`,
`CARTON`, the number `Number(rate)` of the specific rate (`rewardsPerDozen`,
`rewardsForBox`, `rewardsForCarton`) whenever it is finite, whatever `rewardsPerPc` is
(a `null` rate is the number `0`), and otherwise the `PIECE` rate times `12`,
`boxQuantity`, `cartonQuantity`; and `0` for every UOM outside the four. -/
theorem getRewardPerUnit_cases (p : Product) :
    (∀ r : Int, toNumber p.rewardsPerPc = JSNum.fin r →
      getRewardPerUnit (some p) "PIECE" = r) ∧
    ((∀ r : Int, toNumber p.rewardsPerPc ≠ JSNum.fin r) →
      getRewardPerUnit (some p) "PIECE" = 0) ∧
    (∀ r : Int, toNumber p.rewardsPerDozen = JSNum.fin r →
      getRewardPerUnit (some p) "DOZEN" = r) ∧
    ((∀ r : Int, toNumber p.rewardsPerDozen ≠ JSNum.fin r) →
      getRewardPerUnit (some p) "DOZEN" = getRewardPerUnit (some p) "PIECE" * 12) ∧
    (∀ r : Int, toNumber p.rewardsForBox = JSNum.fin r →
      getRewardPerUnit (some p) "BOX" = r) ∧
    (∀ b : Int, (∀ r : Int, toNumber p.rewardsForBox ≠ JSNum.fin r) →
      toNumber p.boxQuantity = JSNum.fin b →
      getRewardPerUnit (some p) "BOX" = getRewardPerUnit (some p) "PIECE" * b) ∧
    (∀ r : Int, toNumber p.rewardsForCarton = JSNum.fin r →
      getRewardPerUnit (some p) "CARTON" = r) ∧
    (∀ c : Int, (∀ r : Int, toNumber p.rewardsForCarton ≠ JSNum.fin r) →
      toNumber p.cartonQuantity = JSNum.fin c →
      getRewardPerUnit (some p) "CARTON" = getRewardPerUnit (some p) "PIECE" * c) ∧
    (∀ uom : String, uom ∉ UOM_OPTIONS → getRewardPerUnit (some p) uom = 0) := by
  have hfin := normalizeReward_fin
  have hnot := normalizeReward_not_fin
  refine ⟨?_, ?_, ?_, ?_, ?_, ?_, ?_, ?_, ?_⟩
  · intro r h; simp [getRewardPerUnit, hfin _ _ _ h]
  · intro h; simp [getRewardPerUnit, hnot _ _ h]
  · intro r h; simp [getRewardPerUnit, hfin _ _ _ h]
  · intro h; simp [getRewardPerUnit, hnot _ _ h]
  · intro r h; simp [getRewardPerUnit, hfin _ _ _ h]
  · intro b h hb; simp [getRewardPerUnit, hnot _ _ h, hfin _ _ _ hb]
  · intro r h; simp [getRewardPerUnit, hfin _ _ _ h]
  · intro c h hc; simp [getRewardPerUnit, hnot _ _ h, hfin _ _ _ hc]
  · intro uom hu
    simp only [UOM_OPTIONS, List.mem_cons, List.mem_singleton, List.not_mem_nil, or_false,
      not_or] at hu
    simp [getRewardPerUnit, hu.1, hu.2.1, hu.2.2.1, hu.2.2.2]

/-- C7 (witness): a product with `rewardsPerPc = 5`, `boxQuantity = 10` and
`rewardsForBox = 70` (not `5 * 10`) has the `BOX` rate `70`; the sample product, which
has no `rewardsForCarton`, has the `CARTON` rate `5 * 60`. -/
theorem getRewardPerUnit_cases_witness :
    getRewardPerUnit (some { sampleProduct 100 with rewardsForBox := jsInt 70 }) "BOX" = 70 ∧
    getRewardPerUnit (some (sampleProduct 100)) "CARTON" =
      getRewardPerUnit (some (sampleProduct 100)) "PIECE" * 60 ∧
    getRewardPerUnit (some (sampleProduct 100)) "PIECE" = 5 :=
  ⟨(getRewardPerUnit_cases { sampleProduct 100 with rewardsForBox := jsInt 70 }).2.2.2.2.1 70 rfl,
   (getRewardPerUnit_cases (sampleProduct 100)).2.2.2.2.2.2.2.1 60
     (fun _ h => JSNum.noConfusion h) rfl,
   (getRewardPerUnit_cases (sampleProduct 100)).1 5 rfl⟩

/-- C8 (counterexample): a product with `rewardsPerPc = 5` whose `rewardsPerDozen` is
`null` has the `DOZEN` rate `0`, not `5 * 12 = 60`. -/
theorem getRewardPerUnit_null_rate_counterexample :
    nullRatesProduct.rewardsPerDozen = JSVal.null ∧
    nullRatesProduct.rewardsPerPc = jsInt 5 ∧
    getRewardPerUnit (some nullRatesProduct) "DOZEN" = 0 ∧
    getRewardPerUnit (some nullRatesProduct) "DOZEN" ≠ 5 * 12 := by
  decide

/-- C8 (amended): for every product whose specific rate for a UOM is missing (the field
is `undefined`), `getRewardPerUnit` returns the `PIECE` rate times the piece multiplier
of the UOM (`12`, `boxQuantity`, `cartonQuantity`), so that `rewardsPerPc = 5` with no
`rewardsPerDozen` gives `60` for `DOZEN`; a specific rate that is `null` is read as the
number `0`, and `0` is returned. -/
theorem getRewardPerUnit_fallback (p : Product) :
    (p.rewardsPerDozen = JSVal.undefined →
      getRewardPerUnit (some p) "DOZEN" = getRewardPerUnit (some p) "PIECE" * 12) ∧
    (∀ b : Int, p.rewardsForBox = JSVal.undefined → toNumber p.boxQuantity = JSNum.fin b →
      getRewardPerUnit (some p) "BOX" = getRewardPerUnit (some p) "PIECE" * b) ∧
    (∀ c : Int, p.rewardsForCarton = JSVal.undefined →
      toNumber p.cartonQuantity = JSNum.fin c →
      getRewardPerUnit (some p) "CARTON" = getRewardPerUnit (some p) "PIECE" * c) ∧
    (p.rewardsPerPc = jsInt 5 → p.rewardsPerDozen = JSVal.undefined →
      getRewardPerUnit (some p) "DOZEN" = 60) ∧
    (p.rewardsPerDozen = JSVal.null → getRewardPerUnit (some p) "DOZEN" = 0) ∧
    (p.rewardsForBox = JSVal.null → getRewardPerUnit (some p) "BOX" = 0) ∧
    (p.rewardsForCarton = JSVal.null → getRewardPerUnit (some p) "CARTON" = 0) := by
  refine ⟨?_, ?_, ?_, ?_, ?_, ?_, ?_⟩
  · intro h; simp [getRewardPerUnit, h, normalizeReward_undefined]
  · intro b h hb
    simp [getRewardPerUnit, h, normalizeReward_undefined, normalizeReward_fin _ _ _ hb]
  · intro c h hc
    simp [getRewardPerUnit, h, normalizeReward_undefined, normalizeReward_fin _ _ _ hc]
  · intro h5 h
    have h5n : normalizeReward p.rewardsPerPc 0 = 5 := by rw [h5]; rfl
    simp [getRewardPerUnit, h, normalizeReward_undefined, h5n]
  · intro h; simp [getRewardPerUnit, h, normalizeReward_null]
  · intro h; simp [getRewardPerUnit, h, normalizeReward_null]
  · intro h; simp [getRewardPerUnit, h, normalizeReward_null]

/-- C8 (witness): the sample product has `rewardsPerPc = 5` and no `rewardsPerDozen`;
its `DOZEN` rate is `60`. -/
theorem getRewardPerUnit_fallback_witness :
    getRewardPerUnit (some (sampleProduct 100)) "DOZEN" = 60 ∧
    getRewardPerUnit (some (sampleProduct 100)) "BOX" =
      getRewardPerUnit (some (sampleProduct 100)) "PIECE" * 10 ∧
    getRewardPerUnit (some nullRatesProduct) "CARTON" = 0 :=
  ⟨(getRewardPerUnit_fallback (sampleProduct 100)).2.2.2.1 rfl rfl,
   (getRewardPerUnit_fallback (sampleProduct 100)).2.1 10 rfl rfl,
   (getRewardPerUnit_fallback nullRatesProduct).2.2.2.2.2.2 rfl⟩

/-! ## Available units -/

/-- C9: for every product and every positive piece balance `n`, `calculateAvailableUnits`
of `ProductSelector.jsx` returns `pieces = n`, `dozens = floor(n / 12)`,
`boxes = floor(n / boxQuantity)` and `cartons = floor(n / cartonQuantity)`, where an unset
`boxQuantity`/`cartonQuantity` is the divisor `1` and a divisor that is not greater than
`0` gives `0` for that unit. -/
theorem calculateAvailableUnits_positive (p : Product) (n : Int) (hn : 0 < n) :
    (calculateAvailableUnits (some p) (jsInt n)).pieces = JSNum.fin n ∧
    (calculateAvailableUnits (some p) (jsInt n)).dozens = JSNum.fin ⌊(n : ℚ) / 12⌋ ∧
    (p.boxQuantity = JSVal.undefined →
      (calculateAvailableUnits (some p) (jsInt n)).boxes = JSNum.fin ⌊(n : ℚ) / 1⌋) ∧
    (∀ b : Int, toNumber p.boxQuantity = JSNum.fin b → 0 < b →
      (calculateAvailableUnits (some p) (jsInt n)).boxes = JSNum.fin ⌊(n : ℚ) / (b : ℚ)⌋) ∧
    (∀ b : Int, toNumber p.boxQuantity = JSNum.fin b → b ≤ 0 →
      (calculateAvailableUnits (some p) (jsInt n)).boxes = JSNum.fin 0) ∧
    (p.cartonQuantity = JSVal.undefined →
      (calculateAvailableUnits (some p) (jsInt n)).cartons = JSNum.fin ⌊(n : ℚ) / 1⌋) ∧
    (∀ c : Int, toNumber p.cartonQuantity = JSNum.fin c → 0 < c →
      (calculateAvailableUnits (some p) (jsInt n)).cartons = JSNum.fin ⌊(n : ℚ) / (c : ℚ)⌋) ∧
    (∀ c : Int, toNumber p.cartonQuantity = JSNum.fin c → c ≤ 0 →
      (calculateAvailableUnits (some p) (jsInt n)).cartons = JSNum.fin 0) := by
  have hpieces : numOr (toNumber (jsInt n)) (JSNum.fin 0) = JSNum.fin n := numOr_pos n hn
  have hle : JSNum.le (JSNum.fin n) (JSNum.fin 0) = false := by
    simp [JSNum.le, hn]
  have hdiv : ∀ b : Int, 0 < b →
      JSNum.floorDiv (JSNum.fin n) (JSNum.fin b) = JSNum.fin ⌊(n : ℚ) / (b : ℚ)⌋ := by
    intro b hb
    simp [JSNum.floorDiv, ne_of_gt hb, fdiv_eq_floor n b hb]
  have hone : JSNum.floorDiv (JSNum.fin n) (JSNum.fin 1) = JSNum.fin ⌊(n : ℚ) / 1⌋ := by
    simpa using hdiv 1 one_pos
  unfold calculateAvailableUnits
  simp only [hpieces, hle, Bool.false_eq_true, if_false]
  refine ⟨trivial, ?_, ?_, ?_, ?_, ?_, ?_, ?_⟩
  · simpa using hdiv 12 (by norm_num)
  · intro h; rw [h, normalizeReward_undefined]; simpa using hone
  · intro b h hb; rw [normalizeReward_fin _ _ _ h]; simp [hb, hdiv b hb]
  · intro b h hb; rw [normalizeReward_fin _ _ _ h]; simp [not_lt.mpr hb]
  · intro h; rw [h, normalizeReward_undefined]; simpa using hone
  · intro c h hc; rw [normalizeReward_fin _ _ _ h]; simp [hc, hdiv c hc]
  · intro c h hc; rw [normalizeReward_fin _ _ _ h]; simp [not_lt.mpr hc]

/-- C9 (witness): `boxQuantity = 10`, `cartonQuantity = 60` and `125` pieces give
`{pieces: 125, dozens: 10, boxes: 12, cartons: 2}`. -/
theorem calculateAvailableUnits_positive_witness :
    ((0 : Int) < 125 ∧
      (calculateAvailableUnits (some (sampleProduct 100)) (jsInt 125)).pieces = JSNum.fin 125 ∧
      (calculateAvailableUnits (some (sampleProduct 100)) (jsInt 125)).boxes =
        JSNum.fin ⌊((125 : Int) : ℚ) / ((10 : Int) : ℚ)⌋) ∧
    calculateAvailableUnits (some (sampleProduct 100)) (jsInt 125) =
      { pieces := JSNum.fin 125, dozens := JSNum.fin 10, boxes := JSNum.fin 12,
        cartons := JSNum.fin 2 } :=
  ⟨⟨by decide, (calculateAvailableUnits_positive (sampleProduct 100) 125 (by decide)).1,
    (calculateAvailableUnits_positive (sampleProduct 100) 125 (by decide)).2.2.2.1 10 rfl
      (by decide)⟩, by decide⟩

/-- C10: both copies of `calculateAvailableUnits` return
`{pieces: 0, dozens: 0, boxes: 0, cartons: 0}` whenever the product is absent, or
`availablePieces` is missing, is not a number, or is a number that is `0` or negative,
whatever the product's `boxQuantity` and `cartonQuantity`. -/
theorem calculateAvailableUnits_zero (product : Option Product) (availablePieces : JSVal)
    (h : product = none ∨ availablePieces = JSVal.undefined ∨
      toNumber availablePieces = JSNum.nan ∨ toNumber availablePieces = JSNum.negInf ∨
      ∃ n : Int, n ≤ 0 ∧ toNumber availablePieces = JSNum.fin n) :
    calculateAvailableUnits product availablePieces = noUnits ∧
    DistributorMyProducts.calculateAvailableUnits product availablePieces = noUnits := by
  cases product with
  | none => exact ⟨rfl, rfl⟩
  | some p =>
    have hle : JSNum.le (numOr (toNumber availablePieces) (JSNum.fin 0)) (JSNum.fin 0) = true := by
      rcases h with h | h | h | h | ⟨n, hn, h⟩
      · cases h
      · rw [h]; rfl
      · rw [h]; rfl
      · rw [h]; rfl
      · rw [h]
        by_cases h0 : n = 0
        · subst h0; rfl
        · have : numOr (JSNum.fin n) (JSNum.fin 0) = JSNum.fin n := by
            unfold numOr
            split
            · next h => exact absurd (JSNum.fin.inj h) h0
            · next h => exact absurd h (by simp)
            · rfl
          rw [this]; simp [JSNum.le, hn]
    constructor
    · unfold calculateAvailableUnits; simp only [hle, if_true]
    · unfold DistributorMyProducts.calculateAvailableUnits; simp only [hle, if_true]

/-- C10 (witness): a balance of `-3` pieces, and a balance that is the string `"n/a"`,
for the sample product. -/
theorem calculateAvailableUnits_zero_witness :
    (calculateAvailableUnits (some (sampleProduct 100)) (jsInt (-3)) = noUnits ∧
      DistributorMyProducts.calculateAvailableUnits (some (sampleProduct 100)) (jsInt (-3)) =
        noUnits) ∧
    (calculateAvailableUnits (some (sampleProduct 100)) (JSVal.str "n/a" JSNum.nan) = noUnits ∧
      DistributorMyProducts.calculateAvailableUnits (some (sampleProduct 100))
        (JSVal.str "n/a" JSNum.nan) = noUnits) :=
  ⟨calculateAvailableUnits_zero (some (sampleProduct 100)) (jsInt (-3))
      (Or.inr (Or.inr (Or.inr (Or.inr ⟨-3, by decide, rfl⟩)))),
   calculateAvailableUnits_zero (some (sampleProduct 100)) (JSVal.str "n/a" JSNum.nan)
      (Or.inr (Or.inr (Or.inl (by decide))))⟩

/-! ## Line-item operations: auxiliary facts -/

theorem qtyOrZero_some (item : LineItem) : qtyOrZero (some item) = item.qty := by
  unfold qtyOrZero
  by_cases h : item.qty = 0 <;> simp [h]

theorem uniqueLines_filter (items : List LineItem) (f : LineItem → Bool)
    (h : UniqueLines items) : UniqueLines (items.filter f) := by
  unfold UniqueLines at *
  exact h.sublist ((List.filter_sublist items).map _)

theorem uniqueLines_setQty (items : List LineItem) (id uom : String) (n : Int)
    (h : UniqueLines items) :
    UniqueLines (items.map (fun item =>
      if sameLine id uom item then { item with qty := n } else item)) := by
  unfold UniqueLines at *
  rw [List.map_map]
  have : ((fun item : LineItem => (item.productID, item.uom)) ∘
      (fun item => if sameLine id uom item then { item with qty := n } else item)) =
      (fun item : LineItem => (item.productID, item.uom)) := by
    funext item
    by_cases hs : sameLine id uom item = true <;> simp [hs]
  rw [this]
  exact h

theorem find_sameLine_none (items : List LineItem) (id uom : String)
    (h : items.find? (sameLine id uom) = none) :
    ∀ item ∈ items, sameLine id uom item = false := by
  intro item hmem
  have := List.find?_eq_none.mp h item hmem
  simpa using this

theorem uniqueLines_append (items : List LineItem) (id uom : String) (n : Int)
    (rest : List (String × JSVal)) (h : UniqueLines items)
    (hnone : items.find? (sameLine id uom) = none) :
    UniqueLines (items ++ [{ productID := id, qty := n, uom := uom, rest := rest }]) := by
  unfold UniqueLines at *
  rw [List.map_append, List.nodup_append]
  refine ⟨h, by simp, ?_⟩
  intro pair hp hq
  simp only [List.map_cons, List.map_nil, List.mem_singleton] at hq
  obtain ⟨item, hmem, hpair⟩ := List.mem_map.mp hp
  have hs := find_sameLine_none items id uom hnone item hmem
  rw [hq] at hpair
  simp only [Prod.mk.injEq] at hpair
  simp [sameLine, hpair.1, hpair.2] at hs

theorem piecesOf_zero (p : Product) (uom : String) : piecesOf p uom 0 = 0 := by
  unfold piecesOf getPiecesFromUom readField
  split_ifs <;> simp

theorem piecesOf_nonneg (p : Product) (uom : String) (qty : Int) (hq : 0 ≤ qty)
    (hbox : 0 ≤ normalizeReward p.boxQuantity 0)
    (hcarton : 0 ≤ normalizeReward p.cartonQuantity 0) : 0 ≤ piecesOf p uom qty := by
  unfold piecesOf getPiecesFromUom readField
  split_ifs <;> simp only <;> first | exact hq | positivity

theorem allocatedPieces_nil (p : Product) : allocatedPieces p [] = 0 := rfl

theorem allocatedPieces_cons (p : Product) (x : LineItem) (xs : List LineItem) :
    allocatedPieces p (x :: xs) =
      (if x.productID = p._id then piecesOf p x.uom x.qty else 0) + allocatedPieces p xs := by
  unfold allocatedPieces getProductItems
  by_cases h : x.productID = p._id <;> simp [List.filter_cons, h]

theorem otherLinesPieces_cons (p : Product) (uom : String) (x : LineItem)
    (xs : List LineItem) :
    otherLinesPieces p uom (x :: xs) =
      (if x.productID = p._id ∧ x.uom ≠ uom then piecesOf p x.uom x.qty else 0) +
        otherLinesPieces p uom xs := by
  unfold otherLinesPieces
  by_cases h1 : x.productID = p._id <;> by_cases h2 : x.uom = uom <;>
    simp [List.filter_cons, h1, h2]

theorem allocatedPieces_append (p : Product) (xs ys : List LineItem) :
    allocatedPieces p (xs ++ ys) = allocatedPieces p xs + allocatedPieces p ys := by
  induction xs with
  | nil => simp [allocatedPieces_nil]
  | cons x xs ih => rw [List.cons_append, allocatedPieces_cons, allocatedPieces_cons, ih]; ring

theorem allocatedPieces_eq_otherLinesPieces (p : Product) (uom : String)
    (items : List LineItem) (h : ∀ item ∈ items, sameLine p._id uom item = false) :
    allocatedPieces p items = otherLinesPieces p uom items := by
  induction items with
  | nil => rfl
  | cons x xs ih =>
    rw [allocatedPieces_cons, otherLinesPieces_cons,
      ih (fun item hm => h item (List.mem_cons_of_mem _ hm))]
    have hx := h x (List.mem_cons_self _ _)
    by_cases h1 : x.productID = p._id <;> by_cases h2 : x.uom = uom <;>
      simp [sameLine, h1, h2] at hx ⊢

theorem allocatedPieces_removeUnit_same (p : Product) (uom : String)
    (items : List LineItem) :
    allocatedPieces p (removeUnit items p._id uom) = otherLinesPieces p uom items := by
  induction items with
  | nil => rfl
  | cons x xs ih =>
    rw [otherLinesPieces_cons, ← ih]
    unfold removeUnit
    by_cases h1 : x.productID = p._id <;> by_cases h2 : x.uom = uom <;>
      simp [List.filter_cons, sameLine, h1, h2, allocatedPieces_cons]

theorem allocatedPieces_removeUnit_le (p : Product) (id uom : String)
    (items : List LineItem) (hq : ∀ item ∈ items, 0 ≤ item.qty)
    (hbox : 0 ≤ normalizeReward p.boxQuantity 0)
    (hcarton : 0 ≤ normalizeReward p.cartonQuantity 0) :
    allocatedPieces p (removeUnit items id uom) ≤ allocatedPieces p items := by
  induction items with
  | nil => exact le_refl _
  | cons x xs ih =>
    have ih := ih (fun item hm => hq item (List.mem_cons_of_mem _ hm))
    have hx := piecesOf_nonneg p x.uom x.qty (hq x (List.mem_cons_self _ _)) hbox hcarton
    unfold removeUnit at ih ⊢
    rw [allocatedPieces_cons]
    by_cases hs : sameLine id uom x = true
    · simp only [List.filter_cons, hs, Bool.not_true, Bool.false_eq_true, if_false]
      split_ifs <;> omega
    · have hs2 : sameLine id uom x = false := by simpa using hs
      simp only [List.filter_cons, hs2, Bool.not_false, if_true]
      rw [allocatedPieces_cons]
      omega

theorem allocatedPieces_removeUnit_other (p : Product) (id uom : String)
    (items : List LineItem) (hid : id ≠ p._id) :
    allocatedPieces p (removeUnit items id uom) = allocatedPieces p items := by
  induction items with
  | nil => rfl
  | cons x xs ih =>
    unfold removeUnit at ih ⊢
    rw [allocatedPieces_cons, ← ih]
    by_cases h1 : x.productID = id <;> by_cases h2 : x.uom = uom <;>
      simp [List.filter_cons, sameLine, h1, h2, allocatedPieces_cons, hid]

theorem allocatedPieces_setQty_other (p : Product) (id uom : String) (n : Int)
    (items : List LineItem) (hid : id ≠ p._id) :
    allocatedPieces p (items.map (fun item =>
      if sameLine id uom item then { item with qty := n } else item)) =
      allocatedPieces p items := by
  induction items with
  | nil => rfl
  | cons x xs ih =>
    rw [List.map_cons, allocatedPieces_cons, allocatedPieces_cons, ih]
    by_cases h1 : x.productID = id <;> by_cases h2 : x.uom = uom <;>
      simp [sameLine, h1, h2, hid]

theorem allocatedPieces_setQty_same (p : Product) (uom : String) (n : Int)
    (items : List LineItem) (hu : UniqueLines items)
    (hex : ∃ item ∈ items, sameLine p._id uom item = true) :
    allocatedPieces p (items.map (fun item =>
      if sameLine p._id uom item then { item with qty := n } else item)) =
      otherLinesPieces p uom items + piecesOf p uom n := by
  induction items with
  | nil => obtain ⟨item, hm, _⟩ := hex; cases hm
  | cons x xs ih =>
    have hu2 : UniqueLines xs := by
      unfold UniqueLines at hu ⊢
      exact (List.nodup_cons.mp hu).2
    rw [List.map_cons, allocatedPieces_cons, otherLinesPieces_cons]
    by_cases hs : sameLine p._id uom x = true
    · have hxs : ∀ item ∈ xs, sameLine p._id uom item = false := by
        intro item hm
        by_contra hne
        have hitem : sameLine p._id uom item = true := by simpa using hne
        unfold UniqueLines at hu
        have hnot := (List.nodup_cons.mp hu).1
        apply hnot
        simp only [sameLine, Bool.and_eq_true, decide_eq_true_eq] at hs hitem
        exact List.mem_map.mpr ⟨item, hm, by simp only [hitem.1, hitem.2, hs.1, hs.2]⟩
      have hmap : xs.map (fun item =>
          if sameLine p._id uom item then { item with qty := n } else item) = xs := by
        conv_rhs => rw [← List.map_id xs]
        apply List.map_congr_left
        intro item hm
        simp [hxs item hm]
      rw [hmap, allocatedPieces_eq_otherLinesPieces p uom xs hxs]
      simp only [sameLine, Bool.and_eq_true, decide_eq_true_eq] at hs
      simp [sameLine, hs.1, hs.2]
      ring
    · have hex2 : ∃ item ∈ xs, sameLine p._id uom item = true := by
        obtain ⟨item, hm, hi⟩ := hex
        rcases List.mem_cons.mp hm with rfl | hm
        · exact absurd hi hs
        · exact ⟨item, hm, hi⟩
      rw [ih hu2 hex2]
      have hs2 : sameLine p._id uom x = false := by simpa using hs
      by_cases h1 : x.productID = p._id <;> by_cases h2 : x.uom = uom <;>
        simp [sameLine, h1, h2] at hs2 ⊢
      ring

theorem exists_of_find_sameLine (items : List LineItem) (id uom : String)
    (h : (items.find? (sameLine id uom)).isSome = true) :
    ∃ item ∈ items, sameLine id uom item = true := by
  obtain ⟨item, hitem⟩ := Option.isSome_iff_exists.mp h
  exact ⟨item, List.mem_of_find?_eq_some hitem, List.find?_some hitem⟩

theorem updateQuantity_cases (items : List LineItem) (q : Product) (uom : String)
    (delta : Int) (r : List LineItem) (h : updateQuantity items (some q) uom delta = some r) :
    ∃ n : Int, n = max 0 (qtyOrZero (items.find? (sameLine q._id uom)) + delta) ∧
      ((n = 0 ∧ r = removeUnit items q._id uom) ∨
       (0 < n ∧ (∃ item ∈ items, sameLine q._id uom item = true) ∧
          r = items.map (fun item =>
            if sameLine q._id uom item then { item with qty := n } else item)) ∨
       (0 < n ∧ items.find? (sameLine q._id uom) = none ∧
          r = items ++ [{ productID := q._id, qty := n, uom := uom, rest := [] }])) := by
  refine ⟨_, rfl, ?_⟩
  have hn0 : (0 : Int) ≤ max 0 (qtyOrZero (items.find? (sameLine q._id uom)) + delta) :=
    le_max_left _ _
  unfold updateQuantity at h
  simp only at h
  split_ifs at h with hid hzero hsome
  · left
    exact ⟨hzero, (Option.some.inj h).symm⟩
  · right; left
    exact ⟨lt_of_le_of_ne hn0 (Ne.symm hzero), exists_of_find_sameLine items q._id uom hsome,
      (Option.some.inj h).symm⟩
  · right; right
    refine ⟨lt_of_le_of_ne hn0 (Ne.symm hzero), ?_, (Option.some.inj h).symm⟩
    cases hf : items.find? (sameLine q._id uom) with
    | none => rfl
    | some item => rw [hf] at hsome; simp at hsome

theorem updateQuantity_uniqueLines (items : List LineItem) (q : Product) (uom : String)
    (delta : Int) (r : List LineItem) (h : updateQuantity items (some q) uom delta = some r)
    (hu : UniqueLines items) : UniqueLines r := by
  obtain ⟨n, _, hc | hc | hc⟩ := updateQuantity_cases items q uom delta r h
  · rw [hc.2]; exact uniqueLines_filter items _ hu
  · rw [hc.2.2]; exact uniqueLines_setQty items q._id uom n hu
  · rw [hc.2.2]; exact uniqueLines_append items q._id uom n [] hu hc.2.1

theorem updateQuantity_nonneg (items : List LineItem) (q : Product) (uom : String)
    (delta : Int) (r : List LineItem) (h : updateQuantity items (some q) uom delta = some r)
    (hq : ∀ item ∈ items, 0 ≤ item.qty) : ∀ item ∈ r, 0 ≤ item.qty := by
  obtain ⟨n, _, hc | hc | hc⟩ := updateQuantity_cases items q uom delta r h
  · rw [hc.2]
    intro item hm
    exact hq item (List.mem_of_mem_filter hm)
  · rw [hc.2.2]
    intro item hm
    obtain ⟨old, hold, hnew⟩ := List.mem_map.mp hm
    by_cases hs : sameLine q._id uom old = true
    · rw [if_pos hs] at hnew; rw [← hnew]; exact hc.1.le
    · rw [if_neg hs] at hnew; rw [← hnew]; exact hq old hold
  · rw [hc.2.2]
    intro item hm
    rcases List.mem_append.mp hm with hm | hm
    · exact hq item hm
    · rw [List.mem_singleton.mp hm]; exact hc.1.le

theorem updateQuantity_other (p : Product) (items : List LineItem) (q : Product)
    (uom : String) (delta : Int) (r : List LineItem)
    (h : updateQuantity items (some q) uom delta = some r) (hid : q._id ≠ p._id) :
    allocatedPieces p r = allocatedPieces p items := by
  obtain ⟨n, _, hc | hc | hc⟩ := updateQuantity_cases items q uom delta r h
  · rw [hc.2]; exact allocatedPieces_removeUnit_other p q._id uom items hid
  · rw [hc.2.2]; exact allocatedPieces_setQty_other p q._id uom n items hid
  · rw [hc.2.2, allocatedPieces_append, allocatedPieces_cons]
    simp [hid, allocatedPieces_nil]

theorem updateQuantity_same (p : Product) (items : List LineItem) (uom : String)
    (delta : Int) (r : List LineItem)
    (h : updateQuantity items (some p) uom delta = some r) (hu : UniqueLines items)
    (hnew : 0 ≤ qtyOrZero (items.find? (sameLine p._id uom)) + delta) :
    allocatedPieces p r = otherLinesPieces p uom items +
      piecesOf p uom (qtyOrZero (items.find? (sameLine p._id uom)) + delta) := by
  obtain ⟨n, hn, hc | hc | hc⟩ := updateQuantity_cases items p uom delta r h
  all_goals rw [max_eq_right hnew] at hn
  · rw [hc.2, allocatedPieces_removeUnit_same, ← hn, hc.1, piecesOf_zero, add_zero]
  · rw [hc.2.2, allocatedPieces_setQty_same p uom n items hu hc.2.1, hn]
  · rw [hc.2.2, allocatedPieces_append, allocatedPieces_cons, allocatedPieces_nil,
      allocatedPieces_eq_otherLinesPieces p uom items
        (find_sameLine_none items p._id uom hc.2.1), ← hn]
    simp

theorem step_change_cases (userRole : Option String) (items : List LineItem) (q : Product)
    (uom : String) (delta : Int) (hrole : userRole ≠ some "Company") :
    step true userRole items (Action.change q uom delta) = items ∨
    (0 ≤ qtyOrZero (items.find? (sameLine q._id uom)) + delta ∧
      leVal (JSNum.fin (otherLinesPieces q uom items +
        piecesOf q uom (qtyOrZero (items.find? (sameLine q._id uom)) + delta)))
        (availablePiecesOf (some q)) = true ∧
      updateQuantity items (some q) uom delta =
        some (step true userRole items (Action.change q uom delta))) := by
  unfold step handleQuantityChange
  simp only [checkStockAvailability_on userRole items q uom _ hrole]
  by_cases hneg : qtyOrZero (items.find? (sameLine q._id uom)) + delta < 0
  · left; simp [hneg]
  · by_cases hle : leVal (JSNum.fin (otherLinesPieces q uom items +
        piecesOf q uom (qtyOrZero (items.find? (sameLine q._id uom)) + delta)))
        (availablePiecesOf (some q)) = true
    · cases hup : updateQuantity items (some q) uom delta with
      | none => left; simp [hneg, hle, hup]
      | some r => right; exact ⟨not_lt.mp hneg, hle, by simp [hneg, hle, hup]⟩
    · left; simp [hneg, hle]

theorem step_withinAllocation (userRole : Option String) (p : Product) (b : Int)
    (items : List LineItem) (a : Action) (hrole : userRole ≠ some "Company")
    (hbal : allocationPieces (some p) = JSVal.num (JSNum.fin b) ∨
      (allocationPieces (some p) = JSVal.undefined ∧ b = 0))
    (hbox : 0 ≤ normalizeReward p.boxQuantity 0)
    (hcarton : 0 ≤ normalizeReward p.cartonQuantity 0)
    (ha : a.checkedFor p) (hinv : WithinAllocation p b items) :
    WithinAllocation p b (step true userRole items a) := by
  obtain ⟨hu, hq, hsum⟩ := hinv
  cases a with
  | add q value => exact absurd ha (by simp [Action.checkedFor])
  | remove q uom =>
    refine ⟨uniqueLines_filter items _ hu, ?_, ?_⟩
    · intro item hm
      exact hq item (List.mem_of_mem_filter hm)
    · exact le_trans (allocatedPieces_removeUnit_le p q._id uom items hq hbox hcarton) hsum
  | change q uom delta =>
    rcases step_change_cases userRole items q uom delta hrole with hsame | ⟨hnew, hle, hup⟩
    · rw [hsame]; exact ⟨hu, hq, hsum⟩
    · refine ⟨updateQuantity_uniqueLines items q uom delta _ hup hu,
        updateQuantity_nonneg items q uom delta _ hup hq, ?_⟩
      by_cases hid : q._id = p._id
      · have hqp : q = p := ha hid
        subst hqp
        rw [updateQuantity_same q items uom delta _ hup hu hnew]
        simpa [leVal, toNumber_availablePiecesOf q b hbal, JSNum.le] using hle
      · rw [updateQuantity_other p items q uom delta _ hup hid]; exact hsum

theorem run_withinAllocation (userRole : Option String) (p : Product) (b : Int)
    (actions : List Action) (hrole : userRole ≠ some "Company")
    (hbal : allocationPieces (some p) = JSVal.num (JSNum.fin b) ∨
      (allocationPieces (some p) = JSVal.undefined ∧ b = 0))
    (hbox : 0 ≤ normalizeReward p.boxQuantity 0)
    (hcarton : 0 ≤ normalizeReward p.cartonQuantity 0)
    (ha : ∀ a ∈ actions, a.checkedFor p) :
    ∀ items : List LineItem, WithinAllocation p b items →
      WithinAllocation p b (run true userRole items actions) := by
  induction actions with
  | nil => intro items h; exact h
  | cons a rest ih =>
    intro items h
    unfold run
    rw [List.foldl_cons]
    exact ih (fun a2 hm => ha a2 (List.mem_cons_of_mem _ hm)) _
      (step_withinAllocation userRole p b items a hrole hbal hbox hcarton
        (ha a (List.mem_cons_self _ _)) h)

/-! ## The allocation invariant and the uniqueness of lines -/

/-- C3 (counterexample): for the caller role "Distributor", starting from the empty
collection, the piece-equivalent of a product's lines exceeds its balance (a) with the
`showStock` flag off, after Add Unit `PIECE` and one `+1` on a product whose balance is
`1` (`2` pieces), and (b) with the flag on, after the Add Unit buttons `DOZEN` and `PIECE`
on a product whose balance is `12` (`12 + 1 = 13` pieces). -/
theorem allocation_invariant_counterexample :
    (allocatedPieces (sampleProduct 1)
        (run false (some "Distributor") []
          [Action.add (sampleProduct 1) "PIECE", Action.change (sampleProduct 1) "PIECE" 1]) = 2 ∧
      ¬ allocatedPieces (sampleProduct 1)
        (run false (some "Distributor") []
          [Action.add (sampleProduct 1) "PIECE", Action.change (sampleProduct 1) "PIECE" 1]) ≤ 1) ∧
    (allocatedPieces (sampleProduct 12)
        (run true (some "Distributor") []
          [Action.add (sampleProduct 12) "DOZEN", Action.add (sampleProduct 12) "PIECE"]) = 13 ∧
      ¬ allocatedPieces (sampleProduct 12)
        (run true (some "Distributor") []
          [Action.add (sampleProduct 12) "DOZEN", Action.add (sampleProduct 12) "PIECE"]) ≤ 12) := by
  decide

/-- C3 (amended): with the `showStock` flag on and a caller role other than "Company",
for every product whose allocated piece balance is a number `b ≥ 0` (or is missing, `b`
being `0`) and whose box and carton multipliers are not negative: starting from the empty
collection, after any sequence of quantity changes through `handleQuantityChange` (by
`+1`, `-1` or any other delta) and explicit removes, the sum over that product's lines of
`getPiecesFromUom(product, line.uom, line.qty)` does not exceed `b`; and the same
sequences keep every collection that has one line per pair, no negative quantity and the
product's total within `b` in that state.  Quantity changes made for the identifier of
the product are made on the product itself.  The Add Unit action is not part of the
sequences. -/
theorem allocation_invariant (userRole : Option String) (p : Product) (b : Int)
    (actions : List Action) (hrole : userRole ≠ some "Company")
    (hbal : allocationPieces (some p) = JSVal.num (JSNum.fin b) ∨
      (allocationPieces (some p) = JSVal.undefined ∧ b = 0))
    (hb : 0 ≤ b)
    (hbox : 0 ≤ normalizeReward p.boxQuantity 0)
    (hcarton : 0 ≤ normalizeReward p.cartonQuantity 0)
    (ha : ∀ a ∈ actions, a.checkedFor p) :
    allocatedPieces p (run true userRole [] actions) ≤ b ∧
    ∀ items : List LineItem, WithinAllocation p b items →
      WithinAllocation p b (run true userRole items actions) :=
  ⟨(run_withinAllocation userRole p b actions hrole hbal hbox hcarton ha []
      ⟨List.nodup_nil, fun _ hm => absurd hm (List.not_mem_nil _), hb⟩).2.2,
   run_withinAllocation userRole p b actions hrole hbal hbox hcarton ha⟩

/-- C3 (witness): the sample product with balance `100`: `+1` on `BOX`, `+1` on `CARTON`,
a second `+1` on `CARTON` (rejected: `10 + 120 > 100`), then the `BOX` line removed. -/
theorem allocation_invariant_witness :
    allocatedPieces (sampleProduct 100)
      (run true (some "Distributor") []
        [Action.change (sampleProduct 100) "BOX" 1, Action.change (sampleProduct 100) "CARTON" 1,
         Action.change (sampleProduct 100) "CARTON" 1, Action.remove (sampleProduct 100) "BOX"])
      ≤ 100 :=
  allocation_invariant (some "Distributor") (sampleProduct 100) 100
    [Action.change (sampleProduct 100) "BOX" 1, Action.change (sampleProduct 100) "CARTON" 1,
     Action.change (sampleProduct 100) "CARTON" 1, Action.remove (sampleProduct 100) "BOX"]
    (by decide) (Or.inl rfl) (by decide) (by decide) (by decide)
    (by
      intro a hm
      simp only [List.mem_cons, List.mem_singleton, List.not_mem_nil, or_false] at hm
      rcases hm with rfl | rfl | rfl | rfl <;> simp [Action.checkedFor]) |>.1

/-- C4 (failing input): the collection `[{p1, 1, PIECE}]` has one line per pair; the Add
Unit button `PIECE` of product `p1` is enabled and `addUnit` hands
`[{p1, 1, PIECE}, {p1, 1, PIECE}]` to `onChange`, which has two lines for the pair
`(p1, PIECE)`. -/
theorem addUnit_duplicates_line :
    UniqueLines [sampleLine "PIECE" 1] ∧
    addUnit [sampleLine "PIECE" 1] (some (sampleProduct 100)) "PIECE" =
      some [sampleLine "PIECE" 1, sampleLine "PIECE" 1] ∧
    clickAddUnit true (some "Distributor") [sampleLine "PIECE" 1] (sampleProduct 100) "PIECE" =
      some [sampleLine "PIECE" 1, sampleLine "PIECE" 1] ∧
    ¬ UniqueLines [sampleLine "PIECE" 1, sampleLine "PIECE" 1] := by
  decide

/-! ## The guard on the example of the specification -/

/-- C11 (counterexample): with the `showStock` flag off, for the caller role "Distributor",
a balance of `100`, `boxQuantity = 10`, `cartonQuantity = 60` and the line `{BOX, 5}`,
`checkStockAvailability(product, CARTON, 1)` is `true`, not `false`. -/
theorem checkStockAvailability_example_showStock_off :
    checkStockAvailability false (some "Distributor") [sampleLine "BOX" 5]
      (some (sampleProduct 100)) "CARTON" 1 = Except.ok true ∧
    checkStockAvailability false (some "Distributor") [sampleLine "BOX" 5]
      (some (sampleProduct 100)) "CARTON" 1 ≠ Except.ok false := by
  decide

/-- C11 (amended): with the `showStock` flag on, for every caller role other than
"Company", with an allocated balance of `100` pieces, `boxQuantity = 10`,
`cartonQuantity = 60` and the one line `{BOX, 5}`, `checkStockAvailability(product, BOX, 6)`
is `true` and `checkStockAvailability(product, CARTON, 1)` is `false`. -/
theorem checkStockAvailability_example (userRole : Option String)
    (hrole : userRole ≠ some "Company") :
    checkStockAvailability true userRole [sampleLine "BOX" 5] (some (sampleProduct 100))
      "BOX" 6 = Except.ok true ∧
    checkStockAvailability true userRole [sampleLine "BOX" 5] (some (sampleProduct 100))
      "CARTON" 1 = Except.ok false := by
  constructor
  · rw [checkStockAvailability_on userRole _ _ _ _ hrole]; decide
  · rw [checkStockAvailability_on userRole _ _ _ _ hrole]; decide

/-- C11 (witness): the caller role "Dealer". -/
theorem checkStockAvailability_example_witness :
    checkStockAvailability true (some "Dealer") [sampleLine "BOX" 5]
      (some (sampleProduct 100)) "BOX" 6 = Except.ok true ∧
    checkStockAvailability true (some "Dealer") [sampleLine "BOX" 5]
      (some (sampleProduct 100)) "CARTON" 1 = Except.ok false :=
  checkStockAvailability_example (some "Dealer") (by decide)

/-! ## Quantity changes: auxiliary facts -/

theorem lineQty_eq_qtyOrZero (items : List LineItem) (id uom : String) :
    lineQty items id uom = qtyOrZero (items.find? (sameLine id uom)) := by
  unfold lineQty
  cases items.find? (sameLine id uom) with
  | none => rfl
  | some item => exact (qtyOrZero_some item).symm

theorem updateQuantity_isSome (items : List LineItem) (p : Product) (uom : String)
    (delta : Int) (hid : p._id ≠ "") :
    ∃ r : List LineItem, updateQuantity items (some p) uom delta = some r := by
  unfold updateQuantity
  simp only [hid, if_false]
  split_ifs <;> exact ⟨_, rfl⟩

theorem sameLine_setQty (id uom : String) (n : Int) (item : LineItem) :
    sameLine id uom { item with qty := n } = sameLine id uom item := rfl

theorem updateQuantity_hasLine (items : List LineItem) (p : Product) (uom : String)
    (delta : Int) (r : List LineItem) (h : updateQuantity items (some p) uom delta = some r)
    (hpos : 0 < max 0 (lineQty items p._id uom + delta)) :
    HasLine r p._id uom (max 0 (lineQty items p._id uom + delta)) := by
  rw [lineQty_eq_qtyOrZero] at hpos ⊢
  obtain ⟨n, hn, hc | hc | hc⟩ := updateQuantity_cases items p uom delta r h
  · exact absurd hc.1 (by rw [hn]; exact ne_of_gt hpos)
  · obtain ⟨_, ⟨old, hold, hsame⟩, hr⟩ := hc
    rw [← hn, hr]
    constructor
    · refine ⟨{ old with qty := n }, List.mem_map.mpr ⟨old, hold, by simp [hsame]⟩, ?_⟩
      rw [sameLine_setQty]; exact hsame
    · intro item hm hs
      obtain ⟨src, _, hitem⟩ := List.mem_map.mp hm
      by_cases hsrc : sameLine p._id uom src = true
      · rw [if_pos hsrc] at hitem; rw [← hitem]
      · rw [if_neg hsrc] at hitem; rw [← hitem] at hs; exact absurd hs hsrc
  · obtain ⟨_, hnone, hr⟩ := hc
    rw [← hn, hr]
    constructor
    · exact ⟨_, List.mem_append_right _ (List.mem_singleton.mpr rfl), by simp [sameLine]⟩
    · intro item hm hs
      rcases List.mem_append.mp hm with hm | hm
      · have := find_sameLine_none items p._id uom hnone item hm
        rw [this] at hs; cases hs
      · rw [List.mem_singleton.mp hm]

theorem updateQuantity_noLine (items : List LineItem) (p : Product) (uom : String)
    (delta : Int) (r : List LineItem) (h : updateQuantity items (some p) uom delta = some r)
    (hzero : max 0 (lineQty items p._id uom + delta) = 0) : NoLine r p._id uom := by
  rw [lineQty_eq_qtyOrZero] at hzero
  obtain ⟨n, hn, hc | hc | hc⟩ := updateQuantity_cases items p uom delta r h
  · rw [hc.2]
    intro item hm
    have := (List.mem_filter.mp hm).2
    simpa using this
  · exact absurd (hn.trans hzero) (ne_of_gt hc.1)
  · exact absurd (hn.trans hzero) (ne_of_gt hc.1)

theorem updateQuantity_no_zero (items : List LineItem) (p : Product) (uom : String)
    (delta : Int) (r : List LineItem) (h : updateQuantity items (some p) uom delta = some r)
    (hq : ∀ item ∈ items, item.qty ≠ 0) : ∀ item ∈ r, item.qty ≠ 0 := by
  obtain ⟨n, _, hc | hc | hc⟩ := updateQuantity_cases items p uom delta r h
  · rw [hc.2]
    intro item hm
    exact hq item (List.mem_of_mem_filter hm)
  · rw [hc.2.2]
    intro item hm
    obtain ⟨old, hold, hnew⟩ := List.mem_map.mp hm
    by_cases hs : sameLine p._id uom old = true
    · rw [if_pos hs] at hnew; rw [← hnew]; exact ne_of_gt hc.1
    · rw [if_neg hs] at hnew; rw [← hnew]; exact hq old hold
  · rw [hc.2.2]
    intro item hm
    rcases List.mem_append.mp hm with hm | hm
    · exact hq item hm
    · rw [List.mem_singleton.mp hm]; exact ne_of_gt hc.1

/-! ## Quantity changes -/

/-- C12: for every collection, product (with an identifier), UOM and integer delta,
`updateQuantity` hands a collection to `onChange` in which, `n` being
`max(0, oldQty + delta)` with `oldQty` the quantity of the line of the pair and `0` if
there is none: when `n` is positive there is a line for the pair and it has quantity `n`;
when `n` is `0` there is no line for the pair; and if the input collection has no line of
quantity `0`, neither has the output. -/
theorem updateQuantity_line (items : List LineItem) (p : Product) (uom : String)
    (delta : Int) (hid : p._id ≠ "") :
    ∃ r : List LineItem, updateQuantity items (some p) uom delta = some r ∧
      (0 < max 0 (lineQty items p._id uom + delta) →
        HasLine r p._id uom (max 0 (lineQty items p._id uom + delta))) ∧
      (max 0 (lineQty items p._id uom + delta) = 0 → NoLine r p._id uom) ∧
      ((∀ item ∈ items, item.qty ≠ 0) → ∀ item ∈ r, item.qty ≠ 0) := by
  obtain ⟨r, hr⟩ := updateQuantity_isSome items p uom delta hid
  exact ⟨r, hr, updateQuantity_hasLine items p uom delta r hr,
    updateQuantity_noLine items p uom delta r hr, updateQuantity_no_zero items p uom delta r hr⟩

/-- C12 (witness): the collection `[{p1, 5, BOX}, {p1, 1, PIECE}]`, the sample product,
`BOX` and delta `2`: the result is `[{p1, 7, BOX}, {p1, 1, PIECE}]`. -/
theorem updateQuantity_line_witness :
    (sampleProduct 100)._id ≠ "" ∧
    updateQuantity [sampleLine "BOX" 5, sampleLine "PIECE" 1] (some (sampleProduct 100)) "BOX" 2
      = some [sampleLine "BOX" 7, sampleLine "PIECE" 1] ∧
    ∃ r : List LineItem,
      updateQuantity [sampleLine "BOX" 5, sampleLine "PIECE" 1] (some (sampleProduct 100))
        "BOX" 2 = some r ∧
      (0 < max 0 (lineQty [sampleLine "BOX" 5, sampleLine "PIECE" 1] (sampleProduct 100)._id
          "BOX" + 2) →
        HasLine r (sampleProduct 100)._id "BOX"
          (max 0 (lineQty [sampleLine "BOX" 5, sampleLine "PIECE" 1] (sampleProduct 100)._id
            "BOX" + 2))) ∧
      (max 0 (lineQty [sampleLine "BOX" 5, sampleLine "PIECE" 1] (sampleProduct 100)._id
          "BOX" + 2) = 0 → NoLine r (sampleProduct 100)._id "BOX") ∧
      ((∀ item ∈ [sampleLine "BOX" 5, sampleLine "PIECE" 1], item.qty ≠ 0) →
        ∀ item ∈ r, item.qty ≠ 0) :=
  ⟨by decide, by decide,
    updateQuantity_line [sampleLine "BOX" 5, sampleLine "PIECE" 1] (sampleProduct 100) "BOX" 2
      (by decide)⟩

/-! ## The quantity handler: auxiliary facts -/

theorem handleQuantityChange_some (showStock : Bool) (userRole : Option String)
    (items : List LineItem) (p : Product) (uom : String) (delta : Int) :
    handleQuantityChange showStock userRole items (some p) uom delta =
      if lineQty items p._id uom + delta < 0 then Except.ok { next := none, toast := none }
      else
        match checkStockAvailability showStock userRole items (some p) uom
            (lineQty items p._id uom + delta) with
        | Except.error e => Except.error e
        | Except.ok available =>
          if !available then Except.ok { next := none, toast := some "Stock Not Available" }
          else Except.ok { next := updateQuantity items (some p) uom delta, toast := none } := by
  rw [lineQty_eq_qtyOrZero]
  rfl

theorem checkStockAvailability_off (showStock : Bool) (userRole : Option String)
    (items : List LineItem) (product : Option Product) (uom : String) (requestedQty : Int)
    (h : showStock = false ∨ userRole = some "Company") :
    checkStockAvailability showStock userRole items product uom requestedQty =
      Except.ok true := by
  unfold checkStockAvailability
  rcases h with h | h <;> simp [h]

theorem exists_of_lineQty_pos (items : List LineItem) (id uom : String)
    (h : 1 ≤ lineQty items id uom) : ∃ item ∈ items, sameLine id uom item = true := by
  unfold lineQty at h
  cases hf : items.find? (sameLine id uom) with
  | none => rw [hf] at h; simp at h
  | some item => exact ⟨item, List.mem_of_find?_eq_some hf, List.find?_some hf⟩

theorem noLine_tail_of_unique (x : LineItem) (xs : List LineItem) (id uom : String)
    (hu : UniqueLines (x :: xs)) (hs : sameLine id uom x = true) :
    ∀ item ∈ xs, sameLine id uom item = false := by
  intro item hm
  by_contra hne
  have hitem : sameLine id uom item = true := by simpa using hne
  unfold UniqueLines at hu
  apply (List.nodup_cons.mp hu).1
  simp only [sameLine, Bool.and_eq_true, decide_eq_true_eq] at hs hitem
  exact List.mem_map.mpr ⟨item, hm, by simp only [hitem.1, hitem.2, hs.1, hs.2]⟩

theorem allocatedPieces_eq_other_add_line (p : Product) (uom : String)
    (items : List LineItem) (hu : UniqueLines items)
    (hex : ∃ item ∈ items, sameLine p._id uom item = true) :
    allocatedPieces p items =
      otherLinesPieces p uom items + piecesOf p uom (lineQty items p._id uom) := by
  induction items with
  | nil => obtain ⟨item, hm, _⟩ := hex; cases hm
  | cons x xs ih =>
    rw [allocatedPieces_cons, otherLinesPieces_cons]
    by_cases hs : sameLine p._id uom x = true
    · have hxs := noLine_tail_of_unique x xs p._id uom hu hs
      have hq : lineQty (x :: xs) p._id uom = x.qty := by
        unfold lineQty; simp [List.find?_cons, hs]
      rw [hq, allocatedPieces_eq_otherLinesPieces p uom xs hxs]
      simp only [sameLine, Bool.and_eq_true, decide_eq_true_eq] at hs
      simp [hs.1, hs.2]
      ring
    · have hu2 : UniqueLines xs := by
        unfold UniqueLines at hu ⊢
        exact (List.nodup_cons.mp hu).2
      have hex2 : ∃ item ∈ xs, sameLine p._id uom item = true := by
        obtain ⟨item, hm, hi⟩ := hex
        rcases List.mem_cons.mp hm with rfl | hm
        · exact absurd hi hs
        · exact ⟨item, hm, hi⟩
      have hs2 : sameLine p._id uom x = false := by simpa using hs
      have hq : lineQty (x :: xs) p._id uom = lineQty xs p._id uom := by
        unfold lineQty; simp [List.find?_cons, hs2]
      rw [hq, ih hu2 hex2]
      by_cases h1 : x.productID = p._id <;> by_cases h2 : x.uom = uom <;>
        simp [sameLine, h1, h2] at hs2 ⊢
      ring

theorem piecesOf_mono (p : Product) (uom : String) (a b : Int) (hab : a ≤ b)
    (hbox : 0 ≤ normalizeReward p.boxQuantity 0)
    (hcarton : 0 ≤ normalizeReward p.cartonQuantity 0) :
    piecesOf p uom a ≤ piecesOf p uom b := by
  unfold piecesOf getPiecesFromUom readField
  split_ifs <;> simp only
  · exact hab
  · omega
  · exact mul_le_mul_of_nonneg_right hab hbox
  · exact mul_le_mul_of_nonneg_right hab hcarton
  · exact hab

theorem decrement_applied_of_guard (showStock : Bool) (userRole : Option String)
    (items : List LineItem) (p : Product) (uom : String) (hid : p._id ≠ "")
    (hq : 1 ≤ lineQty items p._id uom)
    (hguard : checkStockAvailability showStock userRole items (some p) uom
      (lineQty items p._id uom + -1) = Except.ok true) :
    ∃ r : List LineItem,
      handleQuantityChange showStock userRole items (some p) uom (-1) =
        Except.ok { next := some r, toast := none } ∧
      (lineQty items p._id uom = 1 → NoLine r p._id uom) ∧
      (1 < lineQty items p._id uom → HasLine r p._id uom (lineQty items p._id uom - 1)) := by
  obtain ⟨r, hr⟩ := updateQuantity_isSome items p uom (-1) hid
  refine ⟨r, ?_, ?_, ?_⟩
  · rw [handleQuantityChange_some, hguard, hr]
    have : ¬ lineQty items p._id uom + -1 < 0 := by omega
    simp [this]
  · intro h1
    exact updateQuantity_noLine items p uom (-1) r hr (by rw [h1]; rfl)
  · intro h1
    have hmax : max 0 (lineQty items p._id uom + -1) = lineQty items p._id uom - 1 := by
      rw [max_eq_right (by omega)]; ring
    have := updateQuantity_hasLine items p uom (-1) r hr (by rw [hmax]; omega)
    rwa [hmax] at this

/-! ## Decrement, add and remove -/

/-- C13 (counterexample): with the `showStock` flag on, for the caller role "Distributor",
a balance of `12` and the collection `[{PIECE, 2}, {DOZEN, 1}]`, the decrement
`handleQuantityChange(product, PIECE, -1)` is rejected: the guard is asked about the new
quantity `1`, finds `12 + 1 = 13 > 12`, and the handler shows "Stock Not Available"
and does not call `onChange`. -/
theorem handleQuantityChange_decrement_blocked :
    1 ≤ lineQty [sampleLine "PIECE" 2, sampleLine "DOZEN" 1] (sampleProduct 12)._id "PIECE" ∧
    handleQuantityChange true (some "Distributor") [sampleLine "PIECE" 2, sampleLine "DOZEN" 1]
      (some (sampleProduct 12)) "PIECE" (-1) =
      Except.ok { next := none, toast := some "Stock Not Available" } := by
  decide

/-- C13 (amended): for every caller role, product (with an identifier), UOM and
collection in which the line of the pair has quantity `q ≥ 1`,
`handleQuantityChange(product, uom, -1)` asks the guard about the new quantity `q - 1` as
it does for an increment.  It applies the mutation (the line's quantity becomes `q - 1`,
or the line is removed when `q = 1`) when the guard is off (the `showStock` flag is off or
the role is "Company") and, with the guard on, when the other lines of the product plus
the decremented line are within the balance; with the guard on, when they exceed the
balance, the decrement is rejected with the notification.  In particular the decrement is
applied from every collection that has one line per pair, no negative quantity and the
total of the product within its balance (the multipliers not being negative). -/
theorem handleQuantityChange_decrement (showStock : Bool) (userRole : Option String)
    (items : List LineItem) (p : Product) (uom : String) (hid : p._id ≠ "")
    (hq : 1 ≤ lineQty items p._id uom) :
    ((showStock = false ∨ userRole = some "Company") →
      ∃ r : List LineItem,
        handleQuantityChange showStock userRole items (some p) uom (-1) =
          Except.ok { next := some r, toast := none } ∧
        (lineQty items p._id uom = 1 → NoLine r p._id uom) ∧
        (1 < lineQty items p._id uom →
          HasLine r p._id uom (lineQty items p._id uom - 1))) ∧
    (∀ b : Int, showStock = true → userRole ≠ some "Company" →
      (allocationPieces (some p) = JSVal.num (JSNum.fin b) ∨
        (allocationPieces (some p) = JSVal.undefined ∧ b = 0)) →
      otherLinesPieces p uom items + piecesOf p uom (lineQty items p._id uom - 1) ≤ b →
      ∃ r : List LineItem,
        handleQuantityChange showStock userRole items (some p) uom (-1) =
          Except.ok { next := some r, toast := none } ∧
        (lineQty items p._id uom = 1 → NoLine r p._id uom) ∧
        (1 < lineQty items p._id uom →
          HasLine r p._id uom (lineQty items p._id uom - 1))) ∧
    (∀ b : Int, showStock = true → userRole ≠ some "Company" →
      (allocationPieces (some p) = JSVal.num (JSNum.fin b) ∨
        (allocationPieces (some p) = JSVal.undefined ∧ b = 0)) →
      b < otherLinesPieces p uom items + piecesOf p uom (lineQty items p._id uom - 1) →
      handleQuantityChange showStock userRole items (some p) uom (-1) =
        Except.ok { next := none, toast := some "Stock Not Available" }) ∧
    (∀ b : Int, showStock = true → userRole ≠ some "Company" →
      (allocationPieces (some p) = JSVal.num (JSNum.fin b) ∨
        (allocationPieces (some p) = JSVal.undefined ∧ b = 0)) →
      0 ≤ normalizeReward p.boxQuantity 0 → 0 ≤ normalizeReward p.cartonQuantity 0 →
      WithinAllocation p b items →
      ∃ r : List LineItem,
        handleQuantityChange showStock userRole items (some p) uom (-1) =
          Except.ok { next := some r, toast := none } ∧
        (lineQty items p._id uom = 1 → NoLine r p._id uom) ∧
        (1 < lineQty items p._id uom →
          HasLine r p._id uom (lineQty items p._id uom - 1))) := by
  have hsub : lineQty items p._id uom + -1 = lineQty items p._id uom - 1 := by ring
  have hpass : ∀ b : Int, userRole ≠ some "Company" →
      (allocationPieces (some p) = JSVal.num (JSNum.fin b) ∨
        (allocationPieces (some p) = JSVal.undefined ∧ b = 0)) →
      otherLinesPieces p uom items + piecesOf p uom (lineQty items p._id uom - 1) ≤ b →
      checkStockAvailability true userRole items (some p) uom
        (lineQty items p._id uom + -1) = Except.ok true := by
    intro b hrole hbal hfit
    rw [checkStockAvailability_on userRole items p uom _ hrole, hsub]
    simp only [leVal, toNumber_availablePiecesOf p b hbal, JSNum.le]
    congr 1
    rw [decide_eq_true_eq]
    exact hfit
  refine ⟨?_, ?_, ?_, ?_⟩
  · intro hoff
    exact decrement_applied_of_guard showStock userRole items p uom hid hq
      (checkStockAvailability_off showStock userRole items (some p) uom _ hoff)
  · intro b hshow hrole hbal hfit
    subst hshow
    exact decrement_applied_of_guard true userRole items p uom hid hq
      (hpass b hrole hbal hfit)
  · intro b hshow hrole hbal hlt
    subst hshow
    rw [handleQuantityChange_some, checkStockAvailability_on userRole items p uom _ hrole]
    have hnn : ¬ lineQty items p._id uom + -1 < 0 := by omega
    have hfalse : leVal (JSNum.fin (otherLinesPieces p uom items +
        piecesOf p uom (lineQty items p._id uom + -1))) (availablePiecesOf (some p)) = false := by
      rw [hsub]
      simp only [leVal, toNumber_availablePiecesOf p b hbal, JSNum.le, decide_eq_false_iff_not]
      omega
    simp [hnn, hfalse]
  · intro b hshow hrole hbal hbox hcarton hinv
    subst hshow
    apply decrement_applied_of_guard true userRole items p uom hid hq
    apply hpass b hrole hbal
    have hsum := allocatedPieces_eq_other_add_line p uom items hinv.1
      (exists_of_lineQty_pos items p._id uom hq)
    have hmono := piecesOf_mono p uom (lineQty items p._id uom - 1) (lineQty items p._id uom)
      (by omega) hbox hcarton
    have hle := hinv.2.2
    omega

/-- C13 (witness): the sample product with balance `100` and the collection
`[{BOX, 5}, {PIECE, 1}]`: the decrement of `BOX` is applied with the guard off, and with
the guard on for the role "Dealer"; with balance `12` and `[{PIECE, 13}]`, a collection
over its balance, the decrement to `12` is applied as well. -/
theorem handleQuantityChange_decrement_witness :
    (∃ r : List LineItem,
      handleQuantityChange false (some "Dealer") [sampleLine "BOX" 5, sampleLine "PIECE" 1]
        (some (sampleProduct 100)) "BOX" (-1) = Except.ok { next := some r, toast := none } ∧
      (lineQty [sampleLine "BOX" 5, sampleLine "PIECE" 1] (sampleProduct 100)._id "BOX" = 1 →
        NoLine r (sampleProduct 100)._id "BOX") ∧
      (1 < lineQty [sampleLine "BOX" 5, sampleLine "PIECE" 1] (sampleProduct 100)._id "BOX" →
        HasLine r (sampleProduct 100)._id "BOX"
          (lineQty [sampleLine "BOX" 5, sampleLine "PIECE" 1] (sampleProduct 100)._id "BOX"
            - 1))) ∧
    (∃ r : List LineItem,
      handleQuantityChange true (some "Dealer") [sampleLine "BOX" 5, sampleLine "PIECE" 1]
        (some (sampleProduct 100)) "BOX" (-1) = Except.ok { next := some r, toast := none } ∧
      (lineQty [sampleLine "BOX" 5, sampleLine "PIECE" 1] (sampleProduct 100)._id "BOX" = 1 →
        NoLine r (sampleProduct 100)._id "BOX") ∧
      (1 < lineQty [sampleLine "BOX" 5, sampleLine "PIECE" 1] (sampleProduct 100)._id "BOX" →
        HasLine r (sampleProduct 100)._id "BOX"
          (lineQty [sampleLine "BOX" 5, sampleLine "PIECE" 1] (sampleProduct 100)._id "BOX"
            - 1))) ∧
    handleQuantityChange true (some "Dealer") [sampleLine "BOX" 5, sampleLine "PIECE" 1]
      (some (sampleProduct 100)) "BOX" (-1) =
      Except.ok { next := some [sampleLine "BOX" 4, sampleLine "PIECE" 1], toast := none } ∧
    handleQuantityChange true (some "Dealer") [sampleLine "PIECE" 13]
      (some (sampleProduct 12)) "PIECE" (-1) =
      Except.ok { next := some [sampleLine "PIECE" 12], toast := none } :=
  ⟨(handleQuantityChange_decrement false (some "Dealer")
      [sampleLine "BOX" 5, sampleLine "PIECE" 1] (sampleProduct 100) "BOX" (by decide)
      (by decide)).1 (Or.inl rfl),
   (handleQuantityChange_decrement true (some "Dealer")
      [sampleLine "BOX" 5, sampleLine "PIECE" 1] (sampleProduct 100) "BOX" (by decide)
      (by decide)).2.1 100 rfl (by decide) (Or.inl rfl) (by decide),
   by decide, by decide⟩

/-- C14 (failing input): with the `showStock` flag on, for the caller role "Distributor",
a balance of `12` and the collection `[{DOZEN, 1}]`, the guard check for one `PIECE`
fails (`12 + 1 = 13 > 12`), yet the Add Unit button `PIECE` is enabled and `addUnit`
hands `[{DOZEN, 1}, {PIECE, 1}]` to `onChange`. -/
theorem clickAddUnit_skips_guard :
    NoLine [sampleLine "DOZEN" 1] (sampleProduct 12)._id "PIECE" ∧
    checkStockAvailability true (some "Distributor") [sampleLine "DOZEN" 1]
      (some (sampleProduct 12)) "PIECE" 1 = Except.ok false ∧
    isDisabled true (some "Distributor") (sampleProduct 12) "PIECE" = false ∧
    clickAddUnit true (some "Distributor") [sampleLine "DOZEN" 1] (sampleProduct 12) "PIECE" =
      some [sampleLine "DOZEN" 1, sampleLine "PIECE" 1] := by
  refine ⟨?_, by decide, by decide, by decide⟩
  intro item hm
  rw [List.mem_singleton.mp hm]
  decide

/-- C15: for every collection, product identifier and UOM, the collection `removeUnit`
hands to `onChange` has no line whose `(productID, uom)` is the given pair, whatever the
quantity of the removed lines; the remove button calls it for every value of the
`showStock` flag and every caller role, without consulting the guard. -/
theorem removeUnit_noLine (items : List LineItem) (productId uom : String) :
    (∀ item ∈ removeUnit items productId uom,
      ¬ (item.productID = productId ∧ item.uom = uom)) ∧
    (∀ (showStock : Bool) (userRole : Option String) (product : Product),
      step showStock userRole items (Action.remove product uom) =
        removeUnit items product._id uom) := by
  constructor
  · intro item hm
    have := (List.mem_filter.mp hm).2
    simp only [sameLine, Bool.not_eq_true', Bool.and_eq_false_imp, decide_eq_true_eq,
      decide_eq_false_iff_not] at this
    exact fun h => this h.1 h.2
  · intro _ _ _
    rfl

/-- C15 (witness): removing `(p1, BOX)` from `[{p1, 5, BOX}, {p1, 1, PIECE}]` leaves
`[{p1, 1, PIECE}]`. -/
theorem removeUnit_noLine_witness :
    removeUnit [sampleLine "BOX" 5, sampleLine "PIECE" 1] "p1" "BOX" = [sampleLine "PIECE" 1] ∧
    ∀ item ∈ removeUnit [sampleLine "BOX" 5, sampleLine "PIECE" 1] "p1" "BOX",
      ¬ (item.productID = "p1" ∧ item.uom = "BOX") :=
  ⟨by decide, (removeUnit_noLine [sampleLine "BOX" 5, sampleLine "PIECE" 1] "p1" "BOX").1⟩

/-! ## The round trip -/

theorem find_eq_head_filter (f : LineItem → Bool) (items : List LineItem) :
    items.find? f = (items.filter f).head? := by
  induction items with
  | nil => rfl
  | cons x xs ih =>
    by_cases h : f x = true
    · simp [List.find?_cons, List.filter_cons, h]
    · have h2 : f x = false := by simpa using h
      rw [List.find?_cons, List.filter_cons, h2, ih]
      rfl

theorem noLine_removeUnit (items : List LineItem) (id uom : String) :
    NoLine (removeUnit items id uom) id uom := by
  intro item hm
  have := (List.mem_filter.mp hm).2
  simpa using this

theorem lineQty_of_noLine (items : List LineItem) (id uom : String)
    (h : NoLine items id uom) : lineQty items id uom = 0 := by
  unfold lineQty
  have : items.find? (sameLine id uom) = none := by
    rw [List.find?_eq_none]
    intro item hm
    simp [h item hm]
  rw [this]

theorem updateQuantity_remove_last (items : List LineItem) (p : Product) (uom : String)
    (hid : p._id ≠ "") (hq : lineQty items p._id uom = 1) :
    updateQuantity items (some p) uom (-1) = some (removeUnit items p._id uom) := by
  obtain ⟨r, hr⟩ := updateQuantity_isSome items p uom (-1) hid
  obtain ⟨n, hn, hc | hc | hc⟩ := updateQuantity_cases items p uom (-1) r hr
  · rw [hr, hc.2]
  all_goals
    rw [← lineQty_eq_qtyOrZero, hq] at hn
    have hn0 : n = 0 := by rw [hn]; rfl
    exact absurd hn0 (ne_of_gt hc.1)

theorem updateQuantity_recreate (items : List LineItem) (p : Product) (uom : String)
    (hid : p._id ≠ "") (hno : NoLine items p._id uom) :
    updateQuantity items (some p) uom 1 =
      some (items ++ [{ productID := p._id, qty := 1, uom := uom, rest := [] }]) := by
  obtain ⟨r, hr⟩ := updateQuantity_isSome items p uom 1 hid
  obtain ⟨n, hn, hc | hc | hc⟩ := updateQuantity_cases items p uom 1 r hr
  all_goals
    rw [← lineQty_eq_qtyOrZero, lineQty_of_noLine items p._id uom hno] at hn
    have hn1 : n = 1 := by rw [hn]; rfl
  · rw [hn1] at hc; exact absurd hc.1 (by decide)
  · obtain ⟨_, ⟨item, hm, hs⟩, _⟩ := hc
    rw [hno item hm] at hs; cases hs
  · rw [hr, hc.2.2, hn1]

/-- C16: for a collection with exactly one line for a `(product, UOM)` pair, of quantity
`1`, `updateQuantity` with delta `-1` hands over a collection without a line for the
pair, and `updateQuantity` with delta `+1` on that collection hands over one with exactly
one line for the pair, of quantity `1`; the final collection and the original one have
the same `(productID, uom, qty)` triples as multisets. -/
theorem updateQuantity_round_trip (items : List LineItem) (p : Product) (uom : String)
    (l : LineItem) (hid : p._id ≠ "")
    (hone : items.filter (sameLine p._id uom) = [l]) (hqty : l.qty = 1) :
    ∃ r1 r2 : List LineItem,
      updateQuantity items (some p) uom (-1) = some r1 ∧ NoLine r1 p._id uom ∧
      updateQuantity r1 (some p) uom 1 = some r2 ∧ HasLine r2 p._id uom 1 ∧
      (r2.filter (sameLine p._id uom)).length = 1 ∧
      (r2.map lineTriple).Perm (items.map lineTriple) := by
  have hfind : items.find? (sameLine p._id uom) = some l := by
    rw [find_eq_head_filter, hone]; rfl
  have hq : lineQty items p._id uom = 1 := by
    unfold lineQty; rw [hfind]; exact hqty
  have hl : sameLine p._id uom l = true := List.find?_some hfind
  have hno := noLine_removeUnit items p._id uom
  have hfilter : (removeUnit items p._id uom).filter (sameLine p._id uom) = [] := by
    rw [List.filter_eq_nil_iff]
    intro item hm
    simp [hno item hm]
  have hr2 := updateQuantity_recreate (removeUnit items p._id uom) p uom hid hno
  refine ⟨removeUnit items p._id uom, _, updateQuantity_remove_last items p uom hid hq, hno,
    hr2, ?_, ?_, ?_⟩
  · have := updateQuantity_hasLine (removeUnit items p._id uom) p uom 1 _ hr2
      (by rw [lineQty_of_noLine _ _ _ hno]; decide)
    rwa [lineQty_of_noLine _ _ _ hno] at this
  · rw [List.filter_append, hfilter]
    simp [sameLine]
  · have hperm := List.filter_append_perm (sameLine p._id uom) items
    rw [hone] at hperm
    have htriple : lineTriple l = (p._id, uom, 1) := by
      simp only [sameLine, Bool.and_eq_true, decide_eq_true_eq] at hl
      simp [lineTriple, hl.1, hl.2, hqty]
    have h1 := (hperm.map lineTriple).symm
    rw [List.map_append, List.map_cons, List.map_nil, htriple] at h1
    refine List.Perm.trans ?_ h1.symm
    rw [List.map_append]
    exact List.perm_append_comm

/-- C16 (witness): on `[{p1, 1, PIECE}, {p1, 5, BOX}]` the round trip on `PIECE` gives
`[{p1, 5, BOX}, {p1, 1, PIECE}]`: the same lines in another order. -/
theorem updateQuantity_round_trip_witness :
    (∃ r1 r2 : List LineItem,
      updateQuantity [sampleLine "PIECE" 1, sampleLine "BOX" 5] (some (sampleProduct 100))
        "PIECE" (-1) = some r1 ∧
      NoLine r1 (sampleProduct 100)._id "PIECE" ∧
      updateQuantity r1 (some (sampleProduct 100)) "PIECE" 1 = some r2 ∧
      HasLine r2 (sampleProduct 100)._id "PIECE" 1 ∧
      (r2.filter (sameLine (sampleProduct 100)._id "PIECE")).length = 1 ∧
      (r2.map lineTriple).Perm
        ([sampleLine "PIECE" 1, sampleLine "BOX" 5].map lineTriple)) ∧
    updateQuantity [sampleLine "PIECE" 1, sampleLine "BOX" 5] (some (sampleProduct 100))
      "PIECE" (-1) = some [sampleLine "BOX" 5] ∧
    updateQuantity [sampleLine "BOX" 5] (some (sampleProduct 100)) "PIECE" 1 =
      some [sampleLine "BOX" 5, sampleLine "PIECE" 1] ∧
    [sampleLine "BOX" 5, sampleLine "PIECE" 1] ≠ [sampleLine "PIECE" 1, sampleLine "BOX" 5] :=
  ⟨updateQuantity_round_trip [sampleLine "PIECE" 1, sampleLine "BOX" 5] (sampleProduct 100)
      "PIECE" (sampleLine "PIECE" 1) (by decide) (by decide) rfl,
   by decide, by decide, by decide⟩

/-! ## Rejection -/

/-- C17: whenever `checkStockAvailability` returns `false` for the new quantity,
`handleQuantityChange` returns normally (no exception), does not call `onChange`, so that
the collection is left as it was, and, the guard being consulted for a new quantity that
is not negative, shows the "Stock Not Available" notification. -/
theorem handleQuantityChange_rejection (showStock : Bool) (userRole : Option String)
    (items : List LineItem) (p : Product) (uom : String) (delta : Int)
    (hcheck : checkStockAvailability showStock userRole items (some p) uom
      (lineQty items p._id uom + delta) = Except.ok false) :
    (∃ outcome : Outcome,
      handleQuantityChange showStock userRole items (some p) uom delta = Except.ok outcome ∧
      outcome.next = none ∧
      (0 ≤ lineQty items p._id uom + delta → outcome.toast = some "Stock Not Available")) ∧
    step showStock userRole items (Action.change p uom delta) = items := by
  have h := handleQuantityChange_some showStock userRole items p uom delta
  rw [hcheck] at h
  by_cases hneg : lineQty items p._id uom + delta < 0
  · rw [if_pos hneg] at h
    refine ⟨⟨_, h, rfl, fun h0 => absurd hneg (not_lt.mpr h0)⟩, ?_⟩
    simp only [step, h, Option.getD_none]
  · rw [if_neg hneg] at h
    simp only [Bool.not_false, if_true] at h
    refine ⟨⟨_, h, rfl, fun _ => rfl⟩, ?_⟩
    simp only [step, h, Option.getD_none]

/-- C17 (witness): balance `100`, the line `{BOX, 5}` and `+1` on `CARTON`
(`50 + 60 > 100`). -/
theorem handleQuantityChange_rejection_witness :
    handleQuantityChange true (some "Dealer") [sampleLine "BOX" 5] (some (sampleProduct 100))
      "CARTON" 1 = Except.ok { next := none, toast := some "Stock Not Available" } ∧
    ((∃ outcome : Outcome,
      handleQuantityChange true (some "Dealer") [sampleLine "BOX" 5]
        (some (sampleProduct 100)) "CARTON" 1 = Except.ok outcome ∧
      outcome.next = none ∧
      (0 ≤ lineQty [sampleLine "BOX" 5] (sampleProduct 100)._id "CARTON" + 1 →
        outcome.toast = some "Stock Not Available")) ∧
    step true (some "Dealer") [sampleLine "BOX" 5] (Action.change (sampleProduct 100) "CARTON" 1)
      = [sampleLine "BOX" 5]) :=
  ⟨by decide,
   handleQuantityChange_rejection true (some "Dealer") [sampleLine "BOX" 5] (sampleProduct 100)
     "CARTON" 1 (by decide)⟩

/-! ## The selection summary -/

theorem foldl_summaryReducer (products : List Product) (items : List LineItem) :
    ∀ acc : Summary, items.foldl (summaryReducer products) acc =
      { totalQty := acc.totalQty + (items.map (fun item => item.qty)).sum
        totalRewards := acc.totalRewards + (items.map (fun item =>
          getRewardPerUnit (products.find? (fun prod => decide (prod._id = item.productID)))
            item.uom * item.qty)).sum
        totalItems := acc.totalItems + (items.length : Int) } := by
  induction items with
  | nil => intro acc; simp
  | cons x xs ih =>
    intro acc
    rw [List.foldl_cons, ih]
    simp only [summaryReducer, List.map_cons, List.sum_cons, List.length_cons, Nat.cast_add,
      Nat.cast_one, Summary.mk.injEq]
    refine ⟨by ring, by ring, by ring⟩

/-- C18: the selection summary has `totalItems` equal to the number of lines, `totalQty`
equal to the sum of the raw quantities of the lines, and `totalRewards` equal to the sum
over the lines of `getRewardPerUnit(product of the line, line.uom) * line.qty`, the product
of a line being the first product of the list with the line's `productID`; a line whose
`productID` is that of no product of the list contributes `0`. -/
theorem summary_totals (products : List Product) (items : List LineItem) :
    (summary products items).totalItems = (items.length : Int) ∧
    (summary products items).totalQty = (items.map (fun item => item.qty)).sum ∧
    (summary products items).totalRewards = (items.map (fun item =>
      getRewardPerUnit (products.find? (fun prod => decide (prod._id = item.productID)))
        item.uom * item.qty)).sum ∧
    (∀ item : LineItem, (∀ prod ∈ products, prod._id ≠ item.productID) →
      getRewardPerUnit (products.find? (fun prod => decide (prod._id = item.productID)))
        item.uom * item.qty = 0) := by
  unfold summary
  rw [foldl_summaryReducer]
  refine ⟨by simp, by simp, by simp, ?_⟩
  intro item hno
  have : products.find? (fun prod => decide (prod._id = item.productID)) = none := by
    rw [List.find?_eq_none]
    intro prod hm
    simpa using hno prod hm
  rw [this]
  simp [getRewardPerUnit]

/-- C18 (witness): the products `[p1]` (`rewardsPerPc = 5`, `boxQuantity = 10`) and the
lines `{p1, 2, BOX}` and `{zz, 3, PIECE}`: two lines, quantity `5`, rewards
`5 * 10 * 2 + 0 = 100`. -/
theorem summary_totals_witness :
    summary [sampleProduct 100]
      [sampleLine "BOX" 2, { productID := "zz", qty := 3, uom := "PIECE", rest := [] }] =
      { totalQty := 5, totalRewards := 100, totalItems := 2 } ∧
    getRewardPerUnit ([sampleProduct 100].find? (fun prod => decide (prod._id =
        ({ productID := "zz", qty := 3, uom := "PIECE", rest := [] } : LineItem).productID)))
      ({ productID := "zz", qty := 3, uom := "PIECE", rest := [] } : LineItem).uom *
      ({ productID := "zz", qty := 3, uom := "PIECE", rest := [] } : LineItem).qty = 0 :=
  ⟨by decide,
   (summary_totals [sampleProduct 100]
      [sampleLine "BOX" 2, { productID := "zz", qty := 3, uom := "PIECE", rest := [] }]).2.2.2
      { productID := "zz", qty := 3, uom := "PIECE", rest := [] }
      (by intro prod hm; rw [List.mem_singleton.mp hm]; decide)⟩

/-! ## Available units as the inverse of the piece conversion -/

theorem floorDiv_fin_pos (n b : Int) (hb : 0 < b) :
    JSNum.floorDiv (JSNum.fin n) (JSNum.fin b) = JSNum.fin (n / b) := by
  simp [JSNum.floorDiv, ne_of_gt hb, Int.fdiv_eq_ediv n hb.le]

theorem calculateAvailableUnits_of_pos (p : Product) (n b c : Int) (hn : 0 < n)
    (hb : toNumber p.boxQuantity = JSNum.fin b) (hbpos : 0 < b)
    (hc : toNumber p.cartonQuantity = JSNum.fin c) (hcpos : 0 < c) :
    calculateAvailableUnits (some p) (jsInt n) =
      { pieces := JSNum.fin n, dozens := JSNum.fin (n / 12), boxes := JSNum.fin (n / b),
        cartons := JSNum.fin (n / c) } := by
  have hpieces : numOr (toNumber (jsInt n)) (JSNum.fin 0) = JSNum.fin n := numOr_pos n hn
  have hle : JSNum.le (JSNum.fin n) (JSNum.fin 0) = false := by
    simp [JSNum.le, hn]
  unfold calculateAvailableUnits
  simp only [hpieces, hle, Bool.false_eq_true, if_false, normalizeReward_fin _ _ _ hb,
    normalizeReward_fin _ _ _ hc, hbpos, hcpos, if_true, floorDiv_fin_pos n b hbpos,
    floorDiv_fin_pos n c hcpos, floorDiv_fin_pos n 12 (by norm_num)]

/-- C19: for every product whose `boxQuantity` and `cartonQuantity` are positive
integers, every positive integer balance `n`, every UOM of the enumeration and every
integer `q` (so every natural number), `getPiecesFromUom(p, u, q) <= n` holds if and only
if `q` is at most the count `calculateAvailableUnits(p, n)` reports for the UOM
(`pieces`, `dozens`, `boxes`, `cartons` respectively). -/
theorem calculateAvailableUnits_inverse (p : Product) (n b c q : Int) (uom : String)
    (hn : 0 < n) (hb : toNumber p.boxQuantity = JSNum.fin b) (hbpos : 0 < b)
    (hc : toNumber p.cartonQuantity = JSNum.fin c) (hcpos : 0 < c)
    (hu : uom ∈ UOM_OPTIONS) :
    ∃ pieces count : Int,
      getPiecesFromUom (some p) uom q = Except.ok pieces ∧
      unitCount (calculateAvailableUnits (some p) (jsInt n)) uom = some (JSNum.fin count) ∧
      (pieces ≤ n ↔ q ≤ count) := by
  rw [calculateAvailableUnits_of_pos p n b c hn hb hbpos hc hcpos]
  simp only [UOM_OPTIONS, List.mem_cons, List.mem_singleton, List.not_mem_nil, or_false] at hu
  rcases hu with rfl | rfl | rfl | rfl
  · exact ⟨q, n, by simp [getPiecesFromUom], by simp [unitCount], Iff.rfl⟩
  · exact ⟨q * 12, n / 12, by simp [getPiecesFromUom], by simp [unitCount],
      (Int.le_ediv_iff_mul_le (by norm_num)).symm⟩
  · exact ⟨q * b, n / b,
      by simp [getPiecesFromUom, readField, normalizeReward_fin _ _ _ hb],
      by simp [unitCount], (Int.le_ediv_iff_mul_le hbpos).symm⟩
  · exact ⟨q * c, n / c,
      by simp [getPiecesFromUom, readField, normalizeReward_fin _ _ _ hc],
      by simp [unitCount], (Int.le_ediv_iff_mul_le hcpos).symm⟩

/-- C19 (witness): `boxQuantity = 10`, a balance of `125` pieces and `12` boxes:
`120 <= 125` and `12 <= 12`. -/
theorem calculateAvailableUnits_inverse_witness :
    getPiecesFromUom (some (sampleProduct 100)) "BOX" 12 = Except.ok 120 ∧
    unitCount (calculateAvailableUnits (some (sampleProduct 100)) (jsInt 125)) "BOX" =
      some (JSNum.fin 12) ∧
    ∃ pieces count : Int,
      getPiecesFromUom (some (sampleProduct 100)) "BOX" 12 = Except.ok pieces ∧
      unitCount (calculateAvailableUnits (some (sampleProduct 100)) (jsInt 125)) "BOX" =
        some (JSNum.fin count) ∧
      (pieces ≤ 125 ↔ (12 : Int) ≤ count) :=
  ⟨by decide, by decide,
   calculateAvailableUnits_inverse (sampleProduct 100) 125 10 60 12 "BOX" (by decide) rfl
     (by decide) rfl (by decide) (by decide)⟩

/-! ## Numeric coercion -/

/-- C20 (counterexample): with the fallback `1`, `normalizeReward(null, 1)` is `0`, not
the fallback, and so is `normalizeReward("", 1)`, `Number("")` being `0`. -/
theorem normalizeReward_null_counterexample :
    normalizeReward JSVal.null 1 = 0 ∧ normalizeReward JSVal.null 1 ≠ 1 ∧
    normalizeReward (JSVal.str "" (JSNum.fin 0)) 1 = 0 ∧
    normalizeReward (JSVal.str "" (JSNum.fin 0)) 1 ≠ 1 := by
  decide

/-- C20 (amended): for every fallback, `normalizeReward` returns the numeric value of an
input that is a finite number, or a string or boolean whose `Number(...)` is one, and
returns the fallback for an input that is missing (`undefined`), a string that is not
numeric (`Number(s)` is `NaN`), `NaN` or infinite; `null` and the empty string are
coerced to the number `0`, and `0` is returned for them. -/
theorem normalizeReward_cases (fallback : Int) :
    (∀ n : Int, normalizeReward (JSVal.num (JSNum.fin n)) fallback = n) ∧
    (∀ (s : String) (n : Int), normalizeReward (JSVal.str s (JSNum.fin n)) fallback = n) ∧
    normalizeReward (JSVal.bool true) fallback = 1 ∧
    normalizeReward (JSVal.bool false) fallback = 0 ∧
    normalizeReward JSVal.undefined fallback = fallback ∧
    (∀ s : String, normalizeReward (JSVal.str s JSNum.nan) fallback = fallback) ∧
    (∀ s : String, normalizeReward (JSVal.str s JSNum.posInf) fallback = fallback) ∧
    (∀ s : String, normalizeReward (JSVal.str s JSNum.negInf) fallback = fallback) ∧
    normalizeReward (JSVal.num JSNum.nan) fallback = fallback ∧
    normalizeReward (JSVal.num JSNum.posInf) fallback = fallback ∧
    normalizeReward (JSVal.num JSNum.negInf) fallback = fallback ∧
    normalizeReward JSVal.null fallback = 0 ∧
    normalizeReward (JSVal.str "" (JSNum.fin 0)) fallback = 0 ∧
    (∀ v : JSVal, normalizeReward v fallback = fallback ∨
      toNumber v = JSNum.fin (normalizeReward v fallback)) := by
  refine ⟨fun _ => rfl, fun _ _ => rfl, rfl, rfl, rfl, fun _ => rfl, fun _ => rfl,
    fun _ => rfl, rfl, rfl, rfl, rfl, rfl, ?_⟩
  intro v
  unfold normalizeReward
  cases h : toNumber v with
  | fin n => exact Or.inr rfl
  | nan => exact Or.inl rfl
  | posInf => exact Or.inl rfl
  | negInf => exact Or.inl rfl

/-- C20 (witness): the fallback `7`, the string `"n/a"`, the string `"12"` and `null`. -/
theorem normalizeReward_cases_witness :
    normalizeReward (JSVal.str "n/a" JSNum.nan) 7 = 7 ∧
    normalizeReward (JSVal.str "12" (JSNum.fin 12)) 7 = 12 ∧
    normalizeReward (jsInt 3) 7 = 3 ∧
    normalizeReward JSVal.null 7 = 0 :=
  ⟨(normalizeReward_cases 7).2.2.2.2.2.1 "n/a", (normalizeReward_cases 7).2.1 "12" 12,
   (normalizeReward_cases 7).1 3, (normalizeReward_cases 7).2.2.2.2.2.2.2.2.2.2.2.1⟩

/-! ## Absent products -/

/-- C21 (counterexample): for an absent product, `getPiecesFromUom(undefined, "BOX", 1)`
and `getPiecesFromUom(undefined, "CARTON", 1)` raise a `TypeError`, and so does
`checkStockAvailability(undefined, "PIECE", 1)` with the `showStock` flag on for the
caller role "Dealer"; `getRewardPerUnit` and both copies of `calculateAvailableUnits`
return their default (`0`, the all-zero record) for an absent product. -/
theorem absent_product_raises :
    getPiecesFromUom none "BOX" 1 = Except.error JSError.typeError ∧
    getPiecesFromUom none "CARTON" 1 = Except.error JSError.typeError ∧
    checkStockAvailability true (some "Dealer") [] none "PIECE" 1 =
      Except.error JSError.typeError ∧
    getPiecesFromUom none "PIECE" 1 = Except.ok 1 ∧
    getRewardPerUnit none "BOX" = 0 ∧
    calculateAvailableUnits none (jsInt 125) = noUnits ∧
    DistributorMyProducts.calculateAvailableUnits none (jsInt 125) = noUnits := by
  decide

/-- C21 (amended): for every present product, and any UOM, quantity, collection, caller
role and value of the `showStock` flag, `getPiecesFromUom` and `checkStockAvailability`
return a value and do not raise (`getRewardPerUnit` and `calculateAvailableUnits` have no
raising operation at all); for an absent product `getRewardPerUnit` returns `0`, both
copies of `calculateAvailableUnits` return the all-zero record, `checkStockAvailability`
returns `true` when the guard is off, and `getPiecesFromUom` returns the quantity
conversion for every UOM other than `BOX` and `CARTON`. -/
theorem present_product_returns (showStock : Bool) (userRole : Option String)
    (items : List LineItem) (p : Product) (uom : String) (qty requestedQty : Int)
    (availablePieces : JSVal) :
    (∃ pieces : Int, getPiecesFromUom (some p) uom qty = Except.ok pieces) ∧
    (∃ available : Bool,
      checkStockAvailability showStock userRole items (some p) uom requestedQty =
        Except.ok available) ∧
    getRewardPerUnit none uom = 0 ∧
    calculateAvailableUnits none availablePieces = noUnits ∧
    DistributorMyProducts.calculateAvailableUnits none availablePieces = noUnits ∧
    ((showStock = false ∨ userRole = some "Company") →
      checkStockAvailability showStock userRole items none uom requestedQty =
        Except.ok true) ∧
    (uom ≠ "BOX" → uom ≠ "CARTON" →
      ∃ pieces : Int, getPiecesFromUom none uom qty = Except.ok pieces) := by
  refine ⟨⟨_, getPiecesFromUom_some p uom qty⟩, ?_, rfl, rfl, rfl,
    checkStockAvailability_off showStock userRole items none uom requestedQty, ?_⟩
  · by_cases hoff : showStock = false ∨ userRole = some "Company"
    · exact ⟨true, checkStockAvailability_off showStock userRole items (some p) uom _ hoff⟩
    · have hshow : showStock = true := by
        cases showStock with
        | false => exact absurd (Or.inl rfl) hoff
        | true => rfl
      subst hshow
      exact ⟨_, checkStockAvailability_on userRole items p uom requestedQty
        (fun h => hoff (Or.inr h))⟩
  · intro hbox hcarton
    unfold getPiecesFromUom
    simp only [hbox, hcarton, if_false]
    split_ifs <;> exact ⟨_, rfl⟩

/-- C21 (witness): the sample product, `BOX`, and an absent product with `DOZEN`. -/
theorem present_product_returns_witness :
    (∃ pieces : Int, getPiecesFromUom (some (sampleProduct 100)) "BOX" 3 = Except.ok pieces) ∧
    (∃ available : Bool,
      checkStockAvailability true (some "Dealer") [sampleLine "PIECE" 1]
        (some (sampleProduct 100)) "BOX" 3 = Except.ok available) ∧
    (∃ pieces : Int, getPiecesFromUom none "DOZEN" 3 = Except.ok pieces) :=
  ⟨(present_product_returns true (some "Dealer") [sampleLine "PIECE" 1] (sampleProduct 100)
      "BOX" 3 3 JSVal.undefined).1,
   (present_product_returns true (some "Dealer") [sampleLine "PIECE" 1] (sampleProduct 100)
      "BOX" 3 3 JSVal.undefined).2.1,
   (present_product_returns true (some "Dealer") [sampleLine "PIECE" 1] (sampleProduct 100)
      "DOZEN" 3 3 JSVal.undefined).2.2.2.2.2.2 (by decide) (by decide)⟩

/-! ## The two copies of the available-units calculation -/

theorem numOr_fin_ne (n : Int) (d : JSNum) (hn : n ≠ 0) : numOr (JSNum.fin n) d = JSNum.fin n := by
  unfold numOr
  split
  · next h => exact absurd (JSNum.fin.inj h) hn
  · next h => exact absurd h (by simp)
  · rfl

theorem divisor_agree (v : JSVal) (pieces : JSNum)
    (h : toNumber v = JSNum.nan ∨ ∃ b : Int, b ≠ 0 ∧ toNumber v = JSNum.fin b) :
    (if 0 < normalizeReward v 1 then JSNum.floorDiv pieces (JSNum.fin (normalizeReward v 1))
      else JSNum.fin 0) =
    (if JSNum.gt (numOr (toNumber v) (JSNum.fin 1)) (JSNum.fin 0) then
      JSNum.floorDiv pieces (numOr (toNumber v) (JSNum.fin 1)) else JSNum.fin 0) := by
  rcases h with h | ⟨b, hb, h⟩
  · have h1 : normalizeReward v 1 = 1 := by simp [normalizeReward, h]
    rw [h1, h]
    simp [numOr, JSNum.gt]
  · rw [normalizeReward_fin v 1 b h, h, numOr_fin_ne b _ hb]
    simp [JSNum.gt]

/-- C22 (failing input): for a product whose `boxQuantity` is `0` and a balance of `125`
pieces, the copy of `ProductSelector.jsx` reports `boxes = 0` and the copy of
`DistributorMyProducts.jsx` reports `boxes = 125`; the same happens for a `boxQuantity`
that is `null`. -/
theorem calculateAvailableUnits_copies_differ :
    (calculateAvailableUnits (some { sampleProduct 100 with boxQuantity := jsInt 0 })
        (jsInt 125)).boxes = JSNum.fin 0 ∧
    (DistributorMyProducts.calculateAvailableUnits
        (some { sampleProduct 100 with boxQuantity := jsInt 0 }) (jsInt 125)).boxes =
      JSNum.fin 125 ∧
    (calculateAvailableUnits (some { sampleProduct 100 with boxQuantity := JSVal.null })
        (jsInt 125)).boxes = JSNum.fin 0 ∧
    (DistributorMyProducts.calculateAvailableUnits
        (some { sampleProduct 100 with boxQuantity := JSVal.null }) (jsInt 125)).boxes =
      JSNum.fin 125 ∧
    calculateAvailableUnits (some { sampleProduct 100 with boxQuantity := jsInt 0 })
        (jsInt 125) ≠
      DistributorMyProducts.calculateAvailableUnits
        (some { sampleProduct 100 with boxQuantity := jsInt 0 }) (jsInt 125) := by
  decide

/-- The two copies of `calculateAvailableUnits` return the same record for every
`availablePieces` value and every product (absent products included) whose `boxQuantity`
and `cartonQuantity` each are unset or not a number, or hold a finite number other than
`0`. -/
theorem calculateAvailableUnits_copies_agree (product : Option Product)
    (availablePieces : JSVal)
    (hbox : ∀ p : Product, product = some p →
      toNumber p.boxQuantity = JSNum.nan ∨
        ∃ b : Int, b ≠ 0 ∧ toNumber p.boxQuantity = JSNum.fin b)
    (hcarton : ∀ p : Product, product = some p →
      toNumber p.cartonQuantity = JSNum.nan ∨
        ∃ c : Int, c ≠ 0 ∧ toNumber p.cartonQuantity = JSNum.fin c) :
    calculateAvailableUnits product availablePieces =
      DistributorMyProducts.calculateAvailableUnits product availablePieces := by
  cases product with
  | none => rfl
  | some p =>
    unfold calculateAvailableUnits DistributorMyProducts.calculateAvailableUnits
    simp only [divisor_agree p.boxQuantity _ (hbox p rfl),
      divisor_agree p.cartonQuantity _ (hcarton p rfl)]

/-- The two copies agree on the sample product (`boxQuantity = 10`,
`cartonQuantity = 60`) and a balance of `125` pieces. -/
theorem calculateAvailableUnits_copies_agree_witness :
    calculateAvailableUnits (some (sampleProduct 100)) (jsInt 125) =
      DistributorMyProducts.calculateAvailableUnits (some (sampleProduct 100)) (jsInt 125) :=
  calculateAvailableUnits_copies_agree (some (sampleProduct 100)) (jsInt 125)
    (fun p hp => by
      cases hp
      exact Or.inr ⟨10, by decide, rfl⟩)
    (fun p hp => by
      cases hp
      exact Or.inr ⟨60, by decide, rfl⟩)

/-! ## Accepted updates and duplicate lines -/

/-- C23: for a caller role other than "Company" with the `showStock` flag on and a
product whose allocated piece balance is the number `b` (or is missing, `b` being `0`), if
the collection has at most one line per `(productID, uom)` pair and
`handleQuantityChange(product, uom, delta)` passes the guard and hands the collection `r`
to `onChange`, then the sum over the lines of the product in `r` of
`getPiecesFromUom(product, line.uom, line.qty)` is at most `b`. -/
theorem handleQuantityChange_accepted_within (userRole : Option String)
    (items : List LineItem) (p : Product) (uom : String) (delta b : Int)
    (r : List LineItem) (hrole : userRole ≠ some "Company")
    (hbal : allocationPieces (some p) = JSVal.num (JSNum.fin b) ∨
      (allocationPieces (some p) = JSVal.undefined ∧ b = 0))
    (hu : UniqueLines items)
    (h : handleQuantityChange true userRole items (some p) uom delta =
      Except.ok { next := some r, toast := none }) :
    allocatedPieces p r ≤ b := by
  rw [handleQuantityChange_some, checkStockAvailability_on userRole items p uom _ hrole] at h
  by_cases hneg : lineQty items p._id uom + delta < 0
  · rw [if_pos hneg] at h
    simp at h
  · rw [if_neg hneg] at h
    by_cases hle : leVal (JSNum.fin (otherLinesPieces p uom items +
        piecesOf p uom (lineQty items p._id uom + delta))) (availablePiecesOf (some p)) = true
    · simp only [hle, Bool.not_true, Bool.false_eq_true, if_false, Except.ok.injEq,
        Outcome.mk.injEq, and_true] at h
      have hnew : 0 ≤ qtyOrZero (items.find? (sameLine p._id uom)) + delta := by
        rw [← lineQty_eq_qtyOrZero]; exact not_lt.mp hneg
      rw [updateQuantity_same p items uom delta r h hu hnew, ← lineQty_eq_qtyOrZero]
      simpa [leVal, toNumber_availablePiecesOf p b hbal, JSNum.le] using hle
    · have hfalse : leVal (JSNum.fin (otherLinesPieces p uom items +
          piecesOf p uom (lineQty items p._id uom + delta))) (availablePiecesOf (some p)) =
          false := by simpa using hle
      simp [hfalse] at h

/-- C23 (witness): balance `100`, the lines `[{BOX, 5}, {PIECE, 1}]` and `+1` on `BOX`:
the accepted result `[{BOX, 6}, {PIECE, 1}]` counts `61` pieces. -/
theorem handleQuantityChange_accepted_within_witness :
    handleQuantityChange true (some "Dealer") [sampleLine "BOX" 5, sampleLine "PIECE" 1]
      (some (sampleProduct 100)) "BOX" 1 =
      Except.ok { next := some [sampleLine "BOX" 6, sampleLine "PIECE" 1], toast := none } ∧
    allocatedPieces (sampleProduct 100) [sampleLine "BOX" 6, sampleLine "PIECE" 1] ≤ 100 :=
  ⟨by decide,
   handleQuantityChange_accepted_within (some "Dealer")
     [sampleLine "BOX" 5, sampleLine "PIECE" 1] (sampleProduct 100) "BOX" 1 100
     [sampleLine "BOX" 6, sampleLine "PIECE" 1] (by decide) (Or.inl rfl) (by decide)
     (by decide)⟩

/-- C24: there are a product, a balance and a collection with two lines for one
`(productID, uom)` pair such that, for the caller role "Distributor" with the `showStock`
flag on, `checkStockAvailability` accepts a quantity change for the pair and the
collection `updateQuantity` hands over exceeds the balance: with balance `3` and
`[{PIECE, 1}, {PIECE, 1}]`, the change `+1` is checked as `0 + 2 <= 3`, and the update
sets both lines to `2`, `4` pieces in all. -/
theorem duplicate_lines_undercount :
    ∃ (p : Product) (b : Int) (items r : List LineItem) (uom : String) (delta : Int),
      allocationPieces (some p) = JSVal.num (JSNum.fin b) ∧
      ¬ UniqueLines items ∧
      (items.filter (sameLine p._id uom)).length = 2 ∧
      allocatedPieces p items ≤ b ∧
      checkStockAvailability true (some "Distributor") items (some p) uom
        (lineQty items p._id uom + delta) = Except.ok true ∧
      handleQuantityChange true (some "Distributor") items (some p) uom delta =
        Except.ok { next := some r, toast := none } ∧
      updateQuantity items (some p) uom delta = some r ∧
      b < allocatedPieces p r :=
  ⟨sampleProduct 3, 3, [sampleLine "PIECE" 1, sampleLine "PIECE" 1],
    [sampleLine "PIECE" 2, sampleLine "PIECE" 2], "PIECE", 1,
    by decide, by decide, by decide, by decide, by decide, by decide, by decide, by decide⟩

/-! ## The `showStock` flag and the Add Unit buttons -/

/-- C25: with the `showStock` flag off, `checkStockAvailability` returns `true` for every
caller role, product (present or absent), UOM, requested quantity, collection and balance,
and `handleQuantityChange` never shows the rejection: it returns without a notification,
and hands the result of `updateQuantity` over whenever the new quantity is not negative. -/
theorem checkStockAvailability_showStock_off (userRole : Option String)
    (items : List LineItem) (product : Option Product) (uom : String) (requestedQty : Int) :
    checkStockAvailability false userRole items product uom requestedQty = Except.ok true ∧
    (∀ (p : Product) (delta : Int), ∃ outcome : Outcome,
      handleQuantityChange false userRole items (some p) uom delta = Except.ok outcome ∧
      outcome.toast = none ∧
      (0 ≤ lineQty items p._id uom + delta →
        outcome.next = updateQuantity items (some p) uom delta)) := by
  refine ⟨checkStockAvailability_off false userRole items product uom requestedQty
    (Or.inl rfl), ?_⟩
  intro p delta
  rw [handleQuantityChange_some,
    checkStockAvailability_off false userRole items (some p) uom _ (Or.inl rfl)]
  by_cases hneg : lineQty items p._id uom + delta < 0
  · rw [if_pos hneg]
    exact ⟨_, rfl, rfl, fun h0 => absurd hneg (not_lt.mpr h0)⟩
  · rw [if_neg hneg]
    exact ⟨_, rfl, rfl, fun _ => rfl⟩

/-- C25 (witness): the role "Dealer", a balance of `0` and `+1` on `PIECE` from the empty
collection. -/
theorem checkStockAvailability_showStock_off_witness :
    checkStockAvailability false (some "Dealer") [] (some (sampleProduct 0)) "PIECE" 1 =
      Except.ok true ∧
    handleQuantityChange false (some "Dealer") [] (some (sampleProduct 0)) "PIECE" 1 =
      Except.ok { next := some [sampleLine "PIECE" 1], toast := none } ∧
    ∃ outcome : Outcome,
      handleQuantityChange false (some "Dealer") [] (some (sampleProduct 0)) "PIECE" 1 =
        Except.ok outcome ∧
      outcome.toast = none ∧
      (0 ≤ lineQty [] (sampleProduct 0)._id "PIECE" + 1 →
        outcome.next = updateQuantity [] (some (sampleProduct 0)) "PIECE" 1) :=
  ⟨(checkStockAvailability_showStock_off (some "Dealer") [] (some (sampleProduct 0))
      "PIECE" 1).1, by decide,
   (checkStockAvailability_showStock_off (some "Dealer") [] (some (sampleProduct 0))
      "PIECE" 1).2 (sampleProduct 0) 1⟩

/-- C26: with the `showStock` flag on and a caller role other than "Company", the Add
Unit option `BOX` is disabled for every product: its availability key is `"boxs"`, which
no record of `calculateAvailableUnits` has; the options `PIECE`, `DOZEN` and `CARTON` are
disabled exactly when the count `pieces`, `dozens`, `cartons` of the record is `0`. -/
theorem isDisabled_cases (userRole : Option String) (p : Product)
    (hrole : userRole ≠ some "Company") :
    unitKey "BOX" = "boxs" ∧
    (∀ units : AvailableUnits, units.lookup "boxs" = none) ∧
    isDisabled true userRole p "BOX" = true ∧
    (isDisabled true userRole p "PIECE" = true ↔
      (calculateAvailableUnits (some p) (availablePiecesOf (some p))).pieces = JSNum.fin 0) ∧
    (isDisabled true userRole p "DOZEN" = true ↔
      (calculateAvailableUnits (some p) (availablePiecesOf (some p))).dozens = JSNum.fin 0) ∧
    (isDisabled true userRole p "CARTON" = true ↔
      (calculateAvailableUnits (some p) (availablePiecesOf (some p))).cartons = JSNum.fin 0) := by
  have hbox : unitKey "BOX" = "boxs" := by decide
  have hpiece : unitKey "PIECE" = "pieces" := by decide
  have hdozen : unitKey "DOZEN" = "dozens" := by decide
  have hcarton : unitKey "CARTON" = "cartons" := by decide
  have hnone : ∀ units : AvailableUnits, units.lookup "boxs" = none := by
    intro units
    unfold AvailableUnits.lookup
    rw [if_neg (by decide), if_neg (by decide), if_neg (by decide), if_neg (by decide)]
  refine ⟨hbox, hnone, ?_, ?_, ?_, ?_⟩
  · simp [isDisabled, hrole, hbox, hnone]
  · simp [isDisabled, hrole, hpiece, AvailableUnits.lookup]
  · simp [isDisabled, hrole, hdozen, AvailableUnits.lookup]
  · simp [isDisabled, hrole, hcarton, AvailableUnits.lookup]

/-- C26 (witness): the role "Dealer" and the sample product with a balance of `100`
pieces: `BOX` is disabled although `10` boxes are available, `PIECE` is enabled. -/
theorem isDisabled_cases_witness :
    (calculateAvailableUnits (some (sampleProduct 100))
      (availablePiecesOf (some (sampleProduct 100)))).boxes = JSNum.fin 10 ∧
    isDisabled true (some "Dealer") (sampleProduct 100) "BOX" = true ∧
    isDisabled true (some "Dealer") (sampleProduct 100) "PIECE" = false :=
  ⟨by decide, (isDisabled_cases (some "Dealer") (sampleProduct 100) (by decide)).2.2.1,
   by decide⟩

/-! ## Unset packaging constants -/

theorem boxes_of_unset (p : Product) (n : Int) (hn : 0 < n)
    (h : toNumber p.boxQuantity = JSNum.nan) :
    (calculateAvailableUnits (some p) (jsInt n)).boxes = JSNum.fin n := by
  have hpieces : numOr (toNumber (jsInt n)) (JSNum.fin 0) = JSNum.fin n := numOr_pos n hn
  have hle : JSNum.le (JSNum.fin n) (JSNum.fin 0) = false := by simp [JSNum.le, hn]
  have h1 : normalizeReward p.boxQuantity 1 = 1 := by simp [normalizeReward, h]
  unfold calculateAvailableUnits
  simp only [hpieces, hle, Bool.false_eq_true, if_false, h1]
  simp [floorDiv_fin_pos n 1 one_pos]

theorem cartons_of_unset (p : Product) (n : Int) (hn : 0 < n)
    (h : toNumber p.cartonQuantity = JSNum.nan) :
    (calculateAvailableUnits (some p) (jsInt n)).cartons = JSNum.fin n := by
  have hpieces : numOr (toNumber (jsInt n)) (JSNum.fin 0) = JSNum.fin n := numOr_pos n hn
  have hle : JSNum.le (JSNum.fin n) (JSNum.fin 0) = false := by simp [JSNum.le, hn]
  have h1 : normalizeReward p.cartonQuantity 1 = 1 := by simp [normalizeReward, h]
  unfold calculateAvailableUnits
  simp only [hpieces, hle, Bool.false_eq_true, if_false, h1]
  simp [floorDiv_fin_pos n 1 one_pos]

theorem checkStockAvailability_of_zero_pieces (showStock : Bool) (userRole : Option String)
    (items : List LineItem) (p : Product) (uom : String) (q b : Int)
    (hzero : piecesOf p uom q = 0)
    (hbal : allocationPieces (some p) = JSVal.num (JSNum.fin b) ∨
      (allocationPieces (some p) = JSVal.undefined ∧ b = 0))
    (hfit : otherLinesPieces p uom items ≤ b) :
    checkStockAvailability showStock userRole items (some p) uom q = Except.ok true := by
  by_cases hoff : showStock = false ∨ userRole = some "Company"
  · exact checkStockAvailability_off showStock userRole items (some p) uom q hoff
  · have hshow : showStock = true := by
      cases showStock with
      | false => exact absurd (Or.inl rfl) hoff
      | true => rfl
    have hrole : userRole ≠ some "Company" := fun h => hoff (Or.inr h)
    subst hshow
    rw [checkStockAvailability_on userRole items p uom q hrole, hzero, add_zero]
    simp only [leVal, toNumber_availablePiecesOf p b hbal, JSNum.le]
    congr 1
    rw [decide_eq_true_eq]
    exact hfit

/-- C27: for a product whose `boxQuantity` is unset or not a number,
`getPiecesFromUom(product, BOX, q)` is `0` for every quantity `q`, whereas
`calculateAvailableUnits` divides by `1` (`boxes` equals the positive balance); so, for
every caller role, `checkStockAvailability` accepts every `BOX` quantity whenever the
other lines of the product fit within its allocated balance.  The same holds for
`cartonQuantity` and `CARTON`. -/
theorem unset_multiplier_is_zero (showStock : Bool) (userRole : Option String)
    (items : List LineItem) (p : Product) (q b : Int)
    (hbal : allocationPieces (some p) = JSVal.num (JSNum.fin b) ∨
      (allocationPieces (some p) = JSVal.undefined ∧ b = 0)) :
    (toNumber p.boxQuantity = JSNum.nan →
      getPiecesFromUom (some p) "BOX" q = Except.ok 0 ∧
      (∀ n : Int, 0 < n → (calculateAvailableUnits (some p) (jsInt n)).boxes = JSNum.fin n) ∧
      (otherLinesPieces p "BOX" items ≤ b →
        checkStockAvailability showStock userRole items (some p) "BOX" q = Except.ok true)) ∧
    (toNumber p.cartonQuantity = JSNum.nan →
      getPiecesFromUom (some p) "CARTON" q = Except.ok 0 ∧
      (∀ n : Int, 0 < n →
        (calculateAvailableUnits (some p) (jsInt n)).cartons = JSNum.fin n) ∧
      (otherLinesPieces p "CARTON" items ≤ b →
        checkStockAvailability showStock userRole items (some p) "CARTON" q =
          Except.ok true)) := by
  constructor
  · intro h
    have h0 : normalizeReward p.boxQuantity 0 = 0 := by simp [normalizeReward, h]
    have hget : getPiecesFromUom (some p) "BOX" q = Except.ok 0 := by
      simp [getPiecesFromUom, readField, h0]
    have hpieces : piecesOf p "BOX" q = 0 := by
      have := getPiecesFromUom_some p "BOX" q
      rw [hget] at this
      exact (Except.ok.inj this).symm
    exact ⟨hget, fun n hn => boxes_of_unset p n hn h,
      checkStockAvailability_of_zero_pieces showStock userRole items p "BOX" q b hpieces hbal⟩
  · intro h
    have h0 : normalizeReward p.cartonQuantity 0 = 0 := by simp [normalizeReward, h]
    have hget : getPiecesFromUom (some p) "CARTON" q = Except.ok 0 := by
      simp [getPiecesFromUom, readField, h0]
    have hpieces : piecesOf p "CARTON" q = 0 := by
      have := getPiecesFromUom_some p "CARTON" q
      rw [hget] at this
      exact (Except.ok.inj this).symm
    exact ⟨hget, fun n hn => cartons_of_unset p n hn h,
      checkStockAvailability_of_zero_pieces showStock userRole items p "CARTON" q b hpieces
        hbal⟩

/-- C27 (witness): the sample product without `boxQuantity`, a balance of `100`, the line
`{PIECE, 40}` and a request of `1000` boxes, for the role "Dealer" with the flag on. -/
theorem unset_multiplier_is_zero_witness :
    getPiecesFromUom (some { sampleProduct 100 with boxQuantity := JSVal.undefined }) "BOX"
      1000 = Except.ok 0 ∧
    (∀ n : Int, 0 < n →
      (calculateAvailableUnits (some { sampleProduct 100 with boxQuantity := JSVal.undefined })
        (jsInt n)).boxes = JSNum.fin n) ∧
    (otherLinesPieces { sampleProduct 100 with boxQuantity := JSVal.undefined } "BOX"
        [sampleLine "PIECE" 40] ≤ 100 →
      checkStockAvailability true (some "Dealer") [sampleLine "PIECE" 40]
        (some { sampleProduct 100 with boxQuantity := JSVal.undefined }) "BOX" 1000 =
        Except.ok true) :=
  (unset_multiplier_is_zero true (some "Dealer") [sampleLine "PIECE" 40]
    { sampleProduct 100 with boxQuantity := JSVal.undefined } 1000 100 (Or.inl rfl)).1 rfl

/-! ## The frame of an update -/

theorem filter_not_sameLine_setQty (items : List LineItem) (id uom : String) (n : Int) :
    (items.map (fun item =>
      if sameLine id uom item then { item with qty := n } else item)).filter
        (fun item => !(sameLine id uom item)) =
      items.filter (fun item => !(sameLine id uom item)) := by
  induction items with
  | nil => rfl
  | cons x xs ih =>
    by_cases hs : sameLine id uom x = true
    · simp only [List.map_cons, hs, if_true, List.filter_cons, sameLine_setQty,
        Bool.not_true, Bool.false_eq_true, if_false]
      exact ih
    · have hs2 : sameLine id uom x = false := by simpa using hs
      simp only [List.map_cons, hs2, Bool.false_eq_true, if_false, List.filter_cons,
        Bool.not_false, if_true]
      rw [ih]

theorem map_lineFrame_setQty (items : List LineItem) (id uom : String) (n : Int) :
    (items.map (fun item =>
      if sameLine id uom item then { item with qty := n } else item)).map lineFrame =
      items.map lineFrame := by
  rw [List.map_map]
  apply List.map_congr_left
  intro item _
  by_cases hs : sameLine id uom item = true <;> simp [hs, lineFrame]

/-- C28: for every collection, product (with an identifier), UOM and delta, the
collection `updateQuantity` hands over has the lines of the other `(productID, uom)`
pairs unchanged and in the same order, and, when the pair has a line that is kept (new
quantity positive), has the same lines at the same places up to their `qty` fields; the
collection `removeUnit` hands over, for every identifier and UOM, has the lines of the
other pairs unchanged and in the same order, and is a sub-list of the collection. -/
theorem update_frame (items : List LineItem) (p : Product) (uom : String) (delta : Int)
    (hid : p._id ≠ "") :
    (∃ r : List LineItem, updateQuantity items (some p) uom delta = some r ∧
      r.filter (fun item => !(sameLine p._id uom item)) =
        items.filter (fun item => !(sameLine p._id uom item)) ∧
      ((∃ item ∈ items, sameLine p._id uom item = true) →
        0 < max 0 (lineQty items p._id uom + delta) →
        r.map lineFrame = items.map lineFrame)) ∧
    (∀ productId : String,
      (removeUnit items productId uom).filter (fun item => !(sameLine productId uom item)) =
        items.filter (fun item => !(sameLine productId uom item)) ∧
      (removeUnit items productId uom).Sublist items) := by
  constructor
  · obtain ⟨r, hr⟩ := updateQuantity_isSome items p uom delta hid
    refine ⟨r, hr, ?_, ?_⟩
    · obtain ⟨n, _, hc | hc | hc⟩ := updateQuantity_cases items p uom delta r hr
      · rw [hc.2]; unfold removeUnit; rw [List.filter_filter]; simp
      · rw [hc.2.2]; exact filter_not_sameLine_setQty items p._id uom n
      · rw [hc.2.2, List.filter_append]; simp [sameLine]
    · intro hex hpos
      rw [lineQty_eq_qtyOrZero] at hpos
      obtain ⟨n, hn, hc | hc | hc⟩ := updateQuantity_cases items p uom delta r hr
      · exact absurd hc.1 (by rw [hn]; exact ne_of_gt hpos)
      · rw [hc.2.2]; exact map_lineFrame_setQty items p._id uom n
      · obtain ⟨item, hm, hs⟩ := hex
        have := find_sameLine_none items p._id uom hc.2.1 item hm
        rw [this] at hs; cases hs
  · intro productId
    constructor
    · unfold removeUnit; rw [List.filter_filter]; simp
    · exact List.filter_sublist items

/-- C28 (witness): `+2` on `BOX` in `[{p1, 5, BOX}, {p1, 1, PIECE}]`. -/
theorem update_frame_witness :
    updateQuantity [sampleLine "BOX" 5, sampleLine "PIECE" 1] (some (sampleProduct 100)) "BOX" 2
      = some [sampleLine "BOX" 7, sampleLine "PIECE" 1] ∧
    ∃ r : List LineItem,
      updateQuantity [sampleLine "BOX" 5, sampleLine "PIECE" 1] (some (sampleProduct 100))
        "BOX" 2 = some r ∧
      r.filter (fun item => !(sameLine (sampleProduct 100)._id "BOX" item)) =
        [sampleLine "BOX" 5, sampleLine "PIECE" 1].filter
          (fun item => !(sameLine (sampleProduct 100)._id "BOX" item)) ∧
      ((∃ item ∈ [sampleLine "BOX" 5, sampleLine "PIECE" 1],
          sameLine (sampleProduct 100)._id "BOX" item = true) →
        0 < max 0 (lineQty [sampleLine "BOX" 5, sampleLine "PIECE" 1] (sampleProduct 100)._id
          "BOX" + 2) →
        r.map lineFrame = [sampleLine "BOX" 5, sampleLine "PIECE" 1].map lineFrame) :=
  ⟨by decide,
   (update_frame [sampleLine "BOX" 5, sampleLine "PIECE" 1] (sampleProduct 100) "BOX" 2
      (by decide)).1⟩

end ProductSelector

namespace DealerInvoices

/-! ## The invoice filter -/

theorem beginsWith_iff (value search : List Char) :
    beginsWith value search = true ↔ ∃ after : List Char, search ++ after = value := by
  induction value generalizing search with
  | nil =>
    cases search with
    | nil => simp [beginsWith]
    | cons d ds => simp [beginsWith]
  | cons c cs ih =>
    cases search with
    | nil => simp [beginsWith]
    | cons d ds =>
      simp only [beginsWith, Bool.and_eq_true, decide_eq_true_eq, ih, List.cons_append,
        List.cons.injEq]
      constructor
      · rintro ⟨rfl, after, h⟩
        exact ⟨after, rfl, h⟩
      · rintro ⟨after, rfl, h⟩
        exact ⟨rfl, after, h⟩

theorem includes_iff (value search : List Char) :
    includes value search = true ↔
      ∃ before after : List Char, before ++ search ++ after = value := by
  induction value with
  | nil =>
    cases search with
    | nil => simp [includes]
    | cons d ds => simp [includes]
  | cons c cs ih =>
    simp only [includes, Bool.or_eq_true, beginsWith_iff, ih]
    constructor
    · rintro (⟨after, h⟩ | ⟨before, after, h⟩)
      · exact ⟨[], after, by simpa using h⟩
      · exact ⟨c :: before, after, by simp [← h]⟩
    · rintro ⟨before, after, h⟩
      cases before with
      | nil => exact Or.inl ⟨after, by simpa using h⟩
      | cons b bs =>
        simp only [List.cons_append, List.cons.injEq] at h
        exact Or.inr ⟨bs, after, h.2⟩

theorem mem_searchableNames (invoice : Invoice) (value : String) :
    value ∈ searchableNames invoice ↔
      value ≠ "" ∧ (fromUserName invoice = some value ∨
        ∃ it ∈ invoice.items, itemName it = value) := by
  unfold searchableNames
  simp only [List.mem_filter, List.mem_filterMap, List.mem_cons, List.mem_map, id,
    decide_eq_true_eq]
  constructor
  · rintro ⟨⟨a, ha, rfl⟩, hne⟩
    refine ⟨hne, ?_⟩
    rcases ha with ha | ⟨it, hit, hname⟩
    · exact Or.inl ha.symm
    · exact Or.inr ⟨it, hit, Option.some.inj hname⟩
  · rintro ⟨hne, h | ⟨it, hit, hname⟩⟩
    · exact ⟨⟨some value, Or.inl h.symm, rfl⟩, hne⟩
    · exact ⟨⟨some value, Or.inr ⟨it, hit, by rw [hname]⟩, rfl⟩, hne⟩

theorem ne_empty_of_occurs (name : String) (search before after : List Char)
    (hs : search ≠ []) (h : before ++ search ++ after = toLowerCase name.data) :
    name ≠ "" := by
  intro hname
  subst hname
  have : before ++ search ++ after = [] := h
  simp only [List.append_eq_nil, List.append_assoc] at this
  exact hs this.2.1

theorem matchesText_iff (filters : Filters) (invoice : Invoice) :
    ((toLowerCase (trim filters.query)).isEmpty ||
      (searchableNames invoice).any (fun value =>
        includes (toLowerCase value.data) (toLowerCase (trim filters.query)))) = true ↔
      MatchesText filters invoice := by
  unfold MatchesText
  by_cases hs : toLowerCase (trim filters.query) = []
  · simp [hs]
  · have hne : (toLowerCase (trim filters.query)).isEmpty = false := by
      simpa [List.isEmpty_iff] using hs
    simp only [hne, Bool.false_or, List.any_eq_true, includes_iff, hs, false_or]
    constructor
    · rintro ⟨value, hmem, before, after, h⟩
      rcases (mem_searchableNames invoice value).mp hmem with ⟨_, hfrom | ⟨it, hit, hname⟩⟩
      · exact Or.inl ⟨value, hfrom, before, after, h⟩
      · exact Or.inr ⟨it, hit, before, after, by rw [hname]; exact h⟩
    · rintro (⟨name, hfrom, before, after, h⟩ | ⟨it, hit, before, after, h⟩)
      · exact ⟨name, (mem_searchableNames invoice name).mpr
          ⟨ne_empty_of_occurs name _ before after hs h, Or.inl hfrom⟩, before, after, h⟩
      · exact ⟨itemName it, (mem_searchableNames invoice (itemName it)).mpr
          ⟨ne_empty_of_occurs (itemName it) _ before after hs h, Or.inr ⟨it, hit, rfl⟩⟩,
          before, after, h⟩

theorem matchesDates_iff (parseDate : String → JSNum) (now : Int) (filters : Filters)
    (invoice : Invoice) :
    ((match (if filters.from_ ≠ "" then some (parseDate filters.from_) else none) with
        | none => true
        | some d => JSNum.ge (invoiceDateOf parseDate now invoice) d) &&
      (match (if filters.to_ ≠ "" then some (parseDate filters.to_) else none) with
        | none => true
        | some d => JSNum.le (invoiceDateOf parseDate now invoice) d)) = true ↔
      MatchesDates parseDate now filters invoice := by
  unfold MatchesDates JSNum.ge
  by_cases hf : filters.from_ = "" <;> by_cases ht : filters.to_ = "" <;> simp [hf, ht]

/-- C30: `applyFilters` returns a sub-list of the invoices, in their order; with the
default filters it returns the invoices unchanged; and it keeps exactly the invoices for
which the trimmed, lower-cased query is empty or occurs in the lower-cased distributor
name or in the lower-cased name of some item, and there is no `from` date or the invoice
date is at or after it, and there is no `to` date or the invoice date is at or before
it. -/
theorem applyFilters_keeps (parseDate : String → JSNum) (now : Int)
    (invoices : List Invoice) (filters : Filters) :
    (applyFilters parseDate now invoices filters).Sublist invoices ∧
    applyFilters parseDate now invoices defaultFilters = invoices ∧
    ∃ keep : Invoice → Bool,
      applyFilters parseDate now invoices filters = invoices.filter keep ∧
      ∀ invoice : Invoice, keep invoice = true ↔
        (MatchesText filters invoice ∧ MatchesDates parseDate now filters invoice) := by
  refine ⟨List.filter_sublist invoices, ?_, ⟨_, rfl, ?_⟩⟩
  · unfold applyFilters
    rw [List.filter_eq_self]
    intro invoice _
    have hq : toLowerCase (trim "") = [] := by decide
    simp [hq, defaultFilters]
  · intro invoice
    simp only [Bool.and_assoc]
    rw [Bool.and_eq_true, matchesText_iff, matchesDates_iff]

/-- C30 (witness): the query `"  ACME "` and the `from` date `2024-01-02` (time value
`2`) keep, of the four sample invoices (dated `3`, `9`, `1`, `7`), the three dated at or
after `2`, in their order; the query `"zebra"` keeps none. -/
theorem applyFilters_keeps_witness :
    applyFilters sampleParseDate 0 sampleInvoices
      { query := "  ACME ", from_ := "2024-01-02", to_ := "" } =
      [sampleInvoice "u1" "Company" 3 [sampleItem "p1" 2],
       sampleInvoice "u2" "Company" 9 [sampleItem "p1" 5],
       sampleInvoice "u1" "Distributor" 7 [sampleItem "p1" 10]] ∧
    applyFilters sampleParseDate 0 sampleInvoices { query := "zebra", from_ := "", to_ := "" } =
      [] ∧
    (applyFilters sampleParseDate 0 sampleInvoices
      { query := "  ACME ", from_ := "2024-01-02", to_ := "" }).Sublist sampleInvoices ∧
    applyFilters sampleParseDate 0 sampleInvoices defaultFilters = sampleInvoices :=
  ⟨by decide, by decide,
   (applyFilters_keeps sampleParseDate 0 sampleInvoices
      { query := "  ACME ", from_ := "2024-01-02", to_ := "" }).1,
   (applyFilters_keeps sampleParseDate 0 sampleInvoices
      { query := "  ACME ", from_ := "2024-01-02", to_ := "" }).2.1⟩

end DealerInvoices

namespace DistributorMyProducts

/-! ## The summary of incoming products: auxiliary facts -/

theorem mapGet_mapSet (summary : IncomingMap) (key : String) (value : Incoming)
    (other : String) :
    mapGet (mapSet summary key value) other =
      if key = other then some value else mapGet summary other := by
  induction summary with
  | nil => simp [mapSet, mapGet]
  | cons entry rest ih =>
    obtain ⟨k, v⟩ := entry
    by_cases hk : k = key
    · subst hk
      by_cases ho : k = other <;> simp [mapSet, mapGet, ho]
    · by_cases ho : k = other
      · subst ho
        have hne : ¬ key = k := fun h => hk h.symm
        simp [mapSet, mapGet, hk, hne]
      · simp [mapSet, mapGet, hk, ho, ih]

theorem mapGet_itemStep (parseDate : String → JSNum) (now : Int) (invoice : Invoice)
    (summary : IncomingMap) (item : InvoiceItem) (key : String) :
    mapGet (itemStep parseDate now invoice summary item) key =
      if productKey item = some key then
        recordAll (mapGet summary key) [(itemQty item, invoiceDateOf parseDate now invoice)]
      else mapGet summary key := by
  unfold itemStep
  cases hk : productKey item with
  | none => simp
  | some productId =>
    simp only [mapGet_mapSet, Option.some.injEq]
    by_cases h : productId = key
    · subst h; simp [recordAll]
    · simp [h]

theorem recordAll_append (start : Option Incoming) (xs ys : List (JSNum × JSNum)) :
    recordAll start (xs ++ ys) = recordAll (recordAll start xs) ys := by
  unfold recordAll
  rw [List.foldl_append]

theorem mapGet_foldl_itemStep (parseDate : String → JSNum) (now : Int) (invoice : Invoice)
    (items : List InvoiceItem) (key : String) :
    ∀ summary : IncomingMap,
      mapGet (items.foldl (itemStep parseDate now invoice) summary) key =
        recordAll (mapGet summary key)
          ((items.filter (fun item => decide (productKey item = some key))).map
            (fun item => (itemQty item, invoiceDateOf parseDate now invoice))) := by
  induction items with
  | nil => intro summary; rfl
  | cons item rest ih =>
    intro summary
    rw [List.foldl_cons, ih, mapGet_itemStep]
    by_cases hk : productKey item = some key
    · simp only [hk, if_true, List.filter_cons, decide_True, List.map_cons]
      rw [← recordAll_append]
      rfl
    · simp only [hk, if_false, List.filter_cons, decide_False, Bool.false_eq_true]

theorem mapGet_foldl_invoiceStep (parseDate : String → JSNum) (now : Int)
    (invoiceRecords : List Invoice) (receiverId key : String) :
    ∀ summary : IncomingMap,
      mapGet (invoiceRecords.foldl (invoiceStep parseDate now receiverId) summary) key =
        recordAll (mapGet summary key)
          (incomingItems parseDate now invoiceRecords receiverId key) := by
  induction invoiceRecords with
  | nil => intro summary; rfl
  | cons invoice rest ih =>
    intro summary
    rw [List.foldl_cons, ih]
    unfold invoiceStep incomingItems incomingInvoices
    by_cases hto : toIdString invoice.toUser = receiverId
    · by_cases hrole : invoice.createdByRole = some "Company"
      · simp only [hto, hrole, ne_eq, not_true_eq_false, if_false, List.filter_cons,
          decide_True, Bool.and_self, if_true, List.flatMap_cons, mapGet_foldl_itemStep,
          recordAll_append]
      · simp only [hto, hrole, ne_eq, not_true_eq_false, if_false, not_false_eq_true, if_true,
          List.filter_cons, decide_True, decide_False, Bool.and_false, Bool.false_eq_true]
    · simp only [hto, ne_eq, not_false_eq_true, if_true, List.filter_cons, decide_False,
        Bool.false_and, Bool.false_eq_true, if_false]

theorem recordAll_cons (start : Option Incoming) (entry : JSNum × JSNum)
    (rest : List (JSNum × JSNum)) :
    recordAll start (entry :: rest) =
      recordAll (some (recordItem (start.getD { totalQty := JSNum.fin 0, lastDate := none })
        entry.1 entry.2)) rest := rfl

theorem recordAll_totalQty (entries : List (JSNum × JSNum)) :
    ∀ existing : Incoming, ∃ entry : Incoming,
      recordAll (some existing) entries = some entry ∧
      entry.totalQty = (entries.map Prod.fst).foldl JSNum.add existing.totalQty := by
  induction entries with
  | nil => intro existing; exact ⟨existing, rfl, rfl⟩
  | cons c rest ih =>
    intro existing
    obtain ⟨entry, hentry, htotal⟩ := ih (recordItem existing c.1 c.2)
    exact ⟨entry, by rw [recordAll_cons]; exact hentry, by rw [htotal]; rfl⟩

theorem recordAll_lastDate (entries : List (JSNum × JSNum)) :
    ∀ (existing : Incoming) (m0 : Int), existing.lastDate = some (JSNum.fin m0) →
      (∀ c ∈ entries, ∃ d : Int, c.2 = JSNum.fin d) →
      ∃ (entry : Incoming) (m : Int),
        recordAll (some existing) entries = some entry ∧
        entry.lastDate = some (JSNum.fin m) ∧ m0 ≤ m ∧
        (m = m0 ∨ ∃ c ∈ entries, c.2 = JSNum.fin m) ∧
        ∀ c ∈ entries, ∀ d : Int, c.2 = JSNum.fin d → d ≤ m := by
  induction entries with
  | nil =>
    intro existing m0 h0 _
    exact ⟨existing, m0, rfl, h0, le_refl _, Or.inl rfl,
      fun c hc => absurd hc (List.not_mem_nil c)⟩
  | cons c rest ih =>
    intro existing m0 h0 hfin
    obtain ⟨d, hd⟩ := hfin c (List.mem_cons_self _ _)
    have hlast : (recordItem existing c.1 c.2).lastDate =
        some (JSNum.fin (if m0 < d then d else m0)) := by
      unfold recordItem
      simp only [h0, hd, JSNum.gt]
      by_cases hlt : m0 < d <;> simp [hlt]
    obtain ⟨entry, m, hentry, hm, hle, hmem, hmax⟩ :=
      ih (recordItem existing c.1 c.2) _ hlast
        (fun c2 hc2 => hfin c2 (List.mem_cons_of_mem _ hc2))
    have hm0 : m0 ≤ m := by
      by_cases hlt : m0 < d
      · rw [if_pos hlt] at hle; omega
      · rw [if_neg hlt] at hle; exact hle
    have hdm : d ≤ m := by
      by_cases hlt : m0 < d
      · rw [if_pos hlt] at hle; exact hle
      · rw [if_neg hlt] at hle; omega
    refine ⟨entry, m, by rw [recordAll_cons]; exact hentry, hm, hm0, ?_, ?_⟩
    · rcases hmem with hmem | ⟨c2, hc2, hc2m⟩
      · by_cases hlt : m0 < d
        · rw [if_pos hlt] at hmem
          exact Or.inr ⟨c, List.mem_cons_self _ _, by rw [hd, hmem]⟩
        · rw [if_neg hlt] at hmem
          exact Or.inl hmem
      · exact Or.inr ⟨c2, List.mem_cons_of_mem _ hc2, hc2m⟩
    · intro c2 hc2 d2 hd2
      rcases List.mem_cons.mp hc2 with rfl | hc2
      · rw [hd] at hd2
        have : d = d2 := JSNum.fin.inj hd2
        omega
      · exact hmax c2 hc2 d2 hd2

theorem gt_nan (x : JSNum) : JSNum.gt x JSNum.nan = false := by
  cases x <;> rfl

theorem recordAll_lastDate_nan (entries : List (JSNum × JSNum)) :
    ∀ existing : Incoming, existing.lastDate = some JSNum.nan →
      ∃ entry : Incoming, recordAll (some existing) entries = some entry ∧
        entry.lastDate = some JSNum.nan := by
  induction entries with
  | nil => intro existing h; exact ⟨existing, rfl, h⟩
  | cons c rest ih =>
    intro existing h
    have hlast : (recordItem existing c.1 c.2).lastDate = some JSNum.nan := by
      unfold recordItem
      simp only [h, gt_nan, Bool.false_eq_true, if_false]
    obtain ⟨entry, hentry, hnan⟩ := ih (recordItem existing c.1 c.2) hlast
    exact ⟨entry, by rw [recordAll_cons]; exact hentry, hnan⟩

/-! ## The summary of incoming products -/

/-- C29 (counterexample): two invoices of the company to `u1` with an item of product
`p1`, the first with the unparsable date `"soon"`, the second dated `5`: the recorded
`lastDate` is the invalid date of the first, not `5`, the latest date among them. -/
theorem summarizeIncomingProducts_invalid_date :
    incomingItems sampleParseDate 0
      [{ sampleInvoice "u1" "Company" 0 [sampleItem "p1" 2] with
          invoiceDate := JSVal.str "soon" JSNum.nan },
        sampleInvoice "u1" "Company" 5 [sampleItem "p1" 1]] "u1" "p1" =
      [(JSNum.fin 2, JSNum.nan), (JSNum.fin 1, JSNum.fin 5)] ∧
    mapGet (summarizeIncomingProducts sampleParseDate 0
      [{ sampleInvoice "u1" "Company" 0 [sampleItem "p1" 2] with
          invoiceDate := JSVal.str "soon" JSNum.nan },
        sampleInvoice "u1" "Company" 5 [sampleItem "p1" 1]] (some "u1")) "p1" =
      some { totalQty := JSNum.fin 3, lastDate := some JSNum.nan } := by
  decide

/-- C29 (amended): `summarizeIncomingProducts` returns an empty map when `receiverId` is
absent (or empty).  Otherwise, for every product identifier: the map has an entry for it
exactly when some item counts for it, that is, has this identifier as its key
(`productID._id`, else `productID`, else `itemCode`) and belongs to an invoice whose
`toUser` identifier is `receiverId` and whose `createdByRole` is "Company"; the recorded
`totalQty` is the sum of `Number(item.qty || 0)` over these items; `lastDate` is the
latest of the dates of their invoices when these dates are valid; and when the date of
the first of them is invalid, `lastDate` is that invalid date. -/
theorem summarizeIncomingProducts_entries (parseDate : String → JSNum) (now : Int)
    (invoiceRecords : List Invoice) :
    summarizeIncomingProducts parseDate now invoiceRecords none = [] ∧
    summarizeIncomingProducts parseDate now invoiceRecords (some "") = [] ∧
    ∀ receiverId productId : String, receiverId ≠ "" →
      (incomingItems parseDate now invoiceRecords receiverId productId = [] →
        mapGet (summarizeIncomingProducts parseDate now invoiceRecords (some receiverId))
          productId = none) ∧
      (incomingItems parseDate now invoiceRecords receiverId productId ≠ [] →
        ∃ entry : Incoming,
          mapGet (summarizeIncomingProducts parseDate now invoiceRecords (some receiverId))
            productId = some entry ∧
          entry.totalQty = sumNumbers
            ((incomingItems parseDate now invoiceRecords receiverId productId).map Prod.fst) ∧
          ((∀ c ∈ incomingItems parseDate now invoiceRecords receiverId productId,
              ∃ d : Int, c.2 = JSNum.fin d) →
            ∃ m : Int, entry.lastDate = some (JSNum.fin m) ∧
              (∃ c ∈ incomingItems parseDate now invoiceRecords receiverId productId,
                c.2 = JSNum.fin m) ∧
              ∀ c ∈ incomingItems parseDate now invoiceRecords receiverId productId,
                ∀ d : Int, c.2 = JSNum.fin d → d ≤ m) ∧
          (∀ c : JSNum × JSNum,
            (incomingItems parseDate now invoiceRecords receiverId productId).head? = some c →
            c.2 = JSNum.nan → entry.lastDate = some JSNum.nan)) := by
  refine ⟨rfl, rfl, ?_⟩
  intro receiverId productId hid
  have hget : mapGet (summarizeIncomingProducts parseDate now invoiceRecords (some receiverId))
      productId = recordAll none (incomingItems parseDate now invoiceRecords receiverId productId) := by
    unfold summarizeIncomingProducts
    simp only [hid, if_false]
    exact mapGet_foldl_invoiceStep parseDate now invoiceRecords receiverId productId []
  rw [hget]
  constructor
  · intro hnil
    rw [hnil]; rfl
  · intro hne
    cases hitems : incomingItems parseDate now invoiceRecords receiverId productId with
    | nil => exact absurd hitems hne
    | cons c rest =>
      rw [recordAll_cons]
      obtain ⟨entry, hentry, htotal⟩ := recordAll_totalQty rest
        (recordItem ((none : Option Incoming).getD { totalQty := JSNum.fin 0, lastDate := none })
          c.1 c.2)
      refine ⟨entry, hentry, by rw [htotal]; rfl, ?_, ?_⟩
      rotate_left
      · intro c0 hhead hnan
        have hc0 : c = c0 := Option.some.inj hhead
        subst hc0
        obtain ⟨entry3, hentry3, hlast3⟩ := recordAll_lastDate_nan rest
          (recordItem ((none : Option Incoming).getD
            { totalQty := JSNum.fin 0, lastDate := none }) c.1 c.2)
          (by simp [recordItem, hnan])
        have heq3 : entry3 = entry := Option.some.inj (hentry3.symm.trans hentry)
        rw [← heq3]; exact hlast3
      intro hfin
      obtain ⟨d, hd⟩ := hfin c (List.mem_cons_self _ _)
      obtain ⟨entry2, m, hentry2, hm, hle, hmem, hmax⟩ := recordAll_lastDate rest
        (recordItem ((none : Option Incoming).getD { totalQty := JSNum.fin 0, lastDate := none })
          c.1 c.2) d (by simp [recordItem, hd])
        (fun c2 hc2 => hfin c2 (List.mem_cons_of_mem _ hc2))
      have heq : entry2 = entry := Option.some.inj (hentry2.symm.trans hentry)
      subst heq
      refine ⟨m, hm, ?_, ?_⟩
      · rcases hmem with hmem | ⟨c2, hc2, hc2m⟩
        · exact ⟨c, List.mem_cons_self _ _, by rw [hd, hmem]⟩
        · exact ⟨c2, List.mem_cons_of_mem _ hc2, hc2m⟩
      · intro c2 hc2 d2 hd2
        rcases List.mem_cons.mp hc2 with rfl | hc2
        · rw [hd] at hd2
          have : d = d2 := JSNum.fin.inj hd2
          omega
        · exact hmax c2 hc2 d2 hd2

/-- C29 (witness): for the receiver `u1` and the product `p1`, the sample invoices count
the items of quantity `2` (dated `3`) and `4` (dated `1`): `totalQty = 6`,
`lastDate = 3`; the invoice to `u2` and the one created by a distributor do not count. -/
theorem summarizeIncomingProducts_entries_witness :
    mapGet (summarizeIncomingProducts sampleParseDate 0 sampleInvoices (some "u1")) "p1" =
      some { totalQty := JSNum.fin 6, lastDate := some (JSNum.fin 3) } ∧
    incomingItems sampleParseDate 0 sampleInvoices "u1" "p1" =
      [(JSNum.fin 2, JSNum.fin 3), (JSNum.fin 4, JSNum.fin 1)] ∧
    (incomingItems sampleParseDate 0 sampleInvoices "u1" "p1" ≠ [] →
      ∃ entry : Incoming,
        mapGet (summarizeIncomingProducts sampleParseDate 0 sampleInvoices (some "u1")) "p1" =
          some entry ∧
        entry.totalQty = sumNumbers
          ((incomingItems sampleParseDate 0 sampleInvoices "u1" "p1").map Prod.fst) ∧
        ((∀ c ∈ incomingItems sampleParseDate 0 sampleInvoices "u1" "p1",
            ∃ d : Int, c.2 = JSNum.fin d) →
          ∃ m : Int, entry.lastDate = some (JSNum.fin m) ∧
            (∃ c ∈ incomingItems sampleParseDate 0 sampleInvoices "u1" "p1",
              c.2 = JSNum.fin m) ∧
            ∀ c ∈ incomingItems sampleParseDate 0 sampleInvoices "u1" "p1",
              ∀ d : Int, c.2 = JSNum.fin d → d ≤ m) ∧
        (∀ c : JSNum × JSNum,
          (incomingItems sampleParseDate 0 sampleInvoices "u1" "p1").head? = some c →
          c.2 = JSNum.nan → entry.lastDate = some JSNum.nan)) :=
  ⟨by decide, by decide,
   ((summarizeIncomingProducts_entries sampleParseDate 0 sampleInvoices).2.2 "u1" "p1"
      (by decide)).2⟩

end DistributorMyProducts
